import Mathlib

set_option maxHeartbeats 1000000

/-!
Verification development for the far-fetch HTTP client wrapper
(src/far-fetch.js, src/far-fetch-helper.js, src/far-fetch-error.js).

The JavaScript source is shallowly embedded: JSON-like runtime values
become the inductive type `JVal`, the deepmerge npm package (v4, default
options, as depended upon in package.json) becomes `deepMerge`, and the
class methods `FarFetch.setFetchOptions`, `FarFetch.userMessage` and
`FarFetch.fetch` become pure functions over explicit configuration and
request records.  The external transport (the platform fetch primitive)
is a function parameter, and hook/handler invocations are recorded in an
explicit event trace.
-/

/-- Model of a JavaScript JSON-like runtime value: the value types the
FarFetch option objects, `data` and `URLParams` mappings range over
(strings, numbers, booleans, null, arrays, plain objects).  Objects are
association lists in property-insertion order, mirroring JS object key
order; numbers are modelled as integers. -/
inductive JVal where
  | null : JVal
  | bool : Bool → JVal
  | num : Int → JVal
  | str : String → JVal
  | arr : List JVal → JVal
  | obj : List (String × JVal) → JVal

/-- Property lookup on an association-list object body: the first binding
of the key, mirroring JS property access on objects with unique keys. -/
def jlookup : List (String × JVal) → String → Option JVal
  | [], _ => none
  | (k', v) :: rest, k => if k' = k then some v else jlookup rest k

/-- Property assignment `o[k] = v` on an association-list object body:
updates the value in place when the key exists (JS keeps the original
insertion position) and appends the binding otherwise. -/
def setKey : List (String × JVal) → String → JVal → List (String × JVal)
  | [], k, v => [(k, v)]
  | (k', v') :: rest, k, v =>
    if k' = k then (k, v) :: rest else (k', v') :: setKey rest k v

/-- The own enumerable entries of a value: an object's bindings, and the
empty list for every non-object (mirrors deepmerge's behaviour on the
values reachable in this program, where a merge source is always a plain
object or an array). -/
def entriesOf : JVal → List (String × JVal)
  | .obj es => es
  | _ => []

/-- Model of deepmerge's isMergeableObject predicate restricted to the
JSON-like values of `JVal`: plain objects and arrays are mergeable,
scalars are not. -/
def isMergeableJ : JVal → Bool
  | .obj _ => true
  | .arr _ => true
  | _ => false

/-- Model of FarFetchHelper.isPlainObject (src/far-fetch-helper.js):
`Object.prototype.toString.call(value) === '[object Object]'`, i.e. true
exactly for plain objects. -/
def isPlainObject : JVal → Bool
  | .obj _ => true
  | _ => false

mutual

/-- Model of the deepmerge npm package, version 4, with default options —
the `deepMerge(target, source)` the source file imports.  When both sides
are arrays the default arrayMerge concatenates target and source; when
exactly one side is an array the (cloned) source replaces the target;
otherwise the two are merged as objects by `mergeEntries`.  Cloning is
the identity on these pure value trees. -/
def deepMerge : JVal → JVal → JVal
  | .arr ta, .arr sa => .arr (ta ++ sa)
  | _, .arr sa => .arr sa
  | .arr _, s => s
  | t, .obj es => .obj (mergeEntries t (entriesOf t) es)
  | t, _ => .obj (entriesOf t)
termination_by _ s => sizeOf s
decreasing_by
  all_goals simp_wf

/-- Model of deepmerge's mergeObject loop over the source's entries: the
destination starts as the target's (cloned) entries; a source value that
is mergeable and whose key is present on the target is merged
recursively, every other source value replaces wholesale. -/
def mergeEntries (t : JVal) (dest : List (String × JVal)) :
    List (String × JVal) → List (String × JVal)
  | [] => dest
  | (k, v) :: rest =>
    let v' :=
      match jlookup (entriesOf t) k, isMergeableJ v with
      | some tv, true => deepMerge tv v
      | _, _ => v
    mergeEntries t (setKey dest k v') rest
termination_by es => sizeOf es
decreasing_by
  all_goals simp_wf
  all_goals omega

end

/-- The per-key value the deepmerge object loop stores for a source entry
`(k, v)` merged over target `t`: recursive merge when the key exists on
the target and the source value is mergeable, the source value itself
otherwise. -/
def mergedValue (t : JVal) (k : String) (v : JVal) : JVal :=
  match jlookup (entriesOf t) k, isMergeableJ v with
  | some tv, true => deepMerge tv v
  | _, _ => v

/-- Decimal digit character, `'0'` for 0 up to `'9'` for 9. -/
def digitCh (n : Nat) : Char := Char.ofNat (48 + n)

/-- Decimal digit expansion of a natural number, most significant digit
first, as produced by JavaScript number-to-string conversion for
non-negative integers. -/
def natDigits (n : Nat) : List Char :=
  if _h : n < 10 then [digitCh n] else natDigits (n / 10) ++ [digitCh (n % 10)]
termination_by n
decreasing_by omega

/-- JavaScript string conversion of an integer (used both by
`JSON.stringify` and by `String(...)` coercion on numbers). -/
def intDigits (i : Int) : List Char :=
  if i < 0 then '-' :: natDigits i.natAbs else natDigits i.natAbs

/-- Lower-case hexadecimal digit character for `n < 16`. -/
def hexDigitLower (n : Nat) : Char :=
  if n < 10 then Char.ofNat (48 + n) else Char.ofNat (87 + n)

/-- JSON.stringify escaping of one character inside a string literal:
quote, backslash, the named control escapes, `\u00xx` for the remaining
control characters, and every other character is kept as-is. -/
def escapeChar (c : Char) : List Char :=
  if c = '"' then ['\\', '"']
  else if c = '\\' then ['\\', '\\']
  else if c = '\x08' then ['\\', 'b']
  else if c = '\x09' then ['\\', 't']
  else if c = '\x0a' then ['\\', 'n']
  else if c = '\x0c' then ['\\', 'f']
  else if c = '\x0d' then ['\\', 'r']
  else if c.toNat < 0x20 then
    ['\\', 'u', '0', '0', hexDigitLower (c.toNat / 16), hexDigitLower (c.toNat % 16)]
  else [c]

/-- JSON.stringify escaping applied to a whole character sequence. -/
def escString : List Char → List Char
  | [] => []
  | c :: cs => escapeChar c ++ escString cs

mutual

/-- Model of JSON.stringify on `JVal` (no replacer, no indent), as the
character sequence it produces: keywords for null and booleans, decimal
notation for (integer) numbers, escaped double-quoted strings,
comma-separated arrays in brackets and key-value objects in braces. -/
def jsonStringify : JVal → List Char
  | .null => 'n' :: ['u', 'l', 'l']
  | .bool true => 't' :: ['r', 'u', 'e']
  | .bool false => 'f' :: ['a', 'l', 's', 'e']
  | .num i => intDigits i
  | .str s => '"' :: (escString s.toList ++ ['"'])
  | .arr vs => '[' :: (jsonStringifyElems vs ++ [']'])
  | .obj es => '\x7b' :: (jsonStringifyFields es ++ ['\x7d'])
termination_by v => sizeOf v

/-- Comma-separated JSON serializations of the elements of an array. -/
def jsonStringifyElems : List JVal → List Char
  | [] => []
  | [v] => jsonStringify v
  | v :: w :: vs => jsonStringify v ++ ',' :: jsonStringifyElems (w :: vs)
termination_by vs => sizeOf vs

/-- Comma-separated JSON serializations of the fields of an object. -/
def jsonStringifyFields : List (String × JVal) → List Char
  | [] => []
  | [(k, v)] => jsonStringifyField k v
  | (k, v) :: es => jsonStringifyField k v ++ ',' :: jsonStringifyFields es
termination_by es => sizeOf es

/-- One `"key":value` field of a JSON object serialization. -/
def jsonStringifyField (k : String) (v : JVal) : List Char :=
  '"' :: (escString k.toList ++ '"' :: ':' :: jsonStringify v)
termination_by sizeOf v + 1

end

/-- Upper-case hexadecimal digit character for `n < 16`. -/
def hexDigitUpper (n : Nat) : Char :=
  if n < 10 then Char.ofNat (48 + n) else Char.ofNat (55 + n)

/-- Characters the application/x-www-form-urlencoded serializer (used by
URLSearchParams.toString) emits unescaped: ASCII alphanumerics and
`*`, `-`, `.`, `_`. -/
def urlKeepChar (c : Char) : Bool :=
  c.isAlphanum || c = '*' || c = '-' || c = '.' || c = '_'

/-- UTF-8 byte sequence of a character (1 to 4 bytes). -/
def utf8Bytes (c : Char) : List Nat :=
  let n := c.toNat
  if n < 0x80 then [n]
  else if n < 0x800 then [0xC0 + n / 64, 0x80 + n % 64]
  else if n < 0x10000 then [0xE0 + n / 4096, 0x80 + n / 64 % 64, 0x80 + n % 64]
  else [0xF0 + n / 262144, 0x80 + n / 4096 % 64, 0x80 + n / 64 % 64, 0x80 + n % 64]

/-- Percent-escape of one byte, `%XX` with upper-case hex digits. -/
def percentByte (b : Nat) : List Char := ['%', hexDigitUpper (b / 16), hexDigitUpper (b % 16)]

/-- Form-urlencoded serialization of one character: kept literally when in
the safe set, `+` for space, percent-escaped UTF-8 bytes otherwise. -/
def encodeComponentChar (c : Char) : List Char :=
  if urlKeepChar c then [c]
  else if c = ' ' then ['+']
  else (utf8Bytes c).foldr (fun b acc => percentByte b ++ acc) []

/-- Form-urlencoded serialization of a character sequence. -/
def encodeComponent : List Char → List Char
  | [] => []
  | c :: cs => encodeComponentChar c ++ encodeComponent cs

/-- One `key=value` pair of a URLSearchParams serialization. -/
def serializePair (k v : List Char) : List Char :=
  encodeComponent k ++ '=' :: encodeComponent v

/-- The `&`-joined pair list of a URLSearchParams serialization
(`new URLSearchParams(pairs).toString()` over a pair sequence). -/
def serializePairs : List (List Char × List Char) → List Char
  | [] => []
  | [p] => serializePair p.1 p.2
  | p :: q :: ps => serializePair p.1 p.2 ++ '&' :: serializePairs (q :: ps)

/-- JavaScript `typeof value === 'object'` on a `JVal`: true for plain
objects, arrays and null. -/
def typeofIsObject : JVal → Bool
  | .obj _ => true
  | .arr _ => true
  | .null => true
  | _ => false

/-- The character sequence a query-string entry value contributes:
`JSON.stringify(value)` when `typeof value === 'object'` (arrays,
objects, null), and otherwise the value itself, coerced to a string by
URLSearchParams (identity on strings, decimal notation on numbers,
`true`/`false` on booleans).  This models the `valueStringified`
computation of FarFetchHelper.objectToQueryString. -/
def queryValueString (v : JVal) : List Char :=
  if typeofIsObject v then jsonStringify v
  else
    match v with
    | .str s => s.toList
    | .num i => intDigits i
    | .bool true => ['t', 'r', 'u', 'e']
    | .bool false => ['f', 'a', 'l', 's', 'e']
    | _ => []

/-- Model of FarFetchHelper.objectToQueryString (src/far-fetch-helper.js):
empty string for an empty mapping, otherwise `?` followed by the
URLSearchParams serialization of the entries, where composite values are
first JSON-stringified. -/
def objectToQueryString (es : List (String × JVal)) : List Char :=
  if es.length > 0 then
    '?' :: serializePairs (es.map fun p => (p.1.toList, queryValueString p.2))
  else []

/-- Decides whether `sub` is a prefix of `hay` (character lists). -/
def lPre : List Char → List Char → Bool
  | [], _ => true
  | _ :: _, [] => false
  | a :: as, b :: bs => a = b && lPre as bs

/-- Decides whether `hay` contains `sub` as a contiguous substring —
model of JavaScript String.prototype.includes. -/
def containsSub (sub : List Char) : List Char → Bool
  | [] => lPre sub []
  | c :: rest => lPre sub (c :: rest) || containsSub sub rest

/-- Model of a transport response: the only field the wrapper inspects is
the numeric status (`response.ok` is derived from it).  The body
transformation performed by FarFetch.modifiedResponse adds derived
fields without changing the status, so it is the identity here. -/
structure Resp where
  status : Nat
deriving Repr, DecidableEq

/-- Exception values of the modelled program: FarFetchError constructed
from a message string, FarFetchError constructed from an
`{ error, response }` payload, TypeError, and exceptions thrown by the
external transport itself (network failures, aborts — never instances of
FarFetchError). -/
inductive JSErr where
  | farFetch (msg : String)
  | farFetchWrapped (error : JSErr) (response : Option Resp)
  | typeError (msg : String)
  | transport (msg : String)
deriving Repr, DecidableEq

/-- JavaScript `error instanceof FarFetchError`. -/
def isFarFetchErrInstance : JSErr → Bool
  | .farFetch _ => true
  | .farFetchWrapped _ _ => true
  | _ => false

/-- Client configuration captured by the FarFetch constructor.  The hook
functions are modelled by whether they are configured (`has…`), by their
returned value (`dynamicOptions`: `none` = no provider configured,
`some r` = provider configured and returning `r`, where `r = none`
models returning undefined), and the error-message template by an
optional function of the options' `method` value and the noun.
`windowHostname` models the ambient `window.location.hostname`. -/
structure FFConfig where
  baseURL : String := ""
  localBaseURL : String := ""
  dynamicOptions : Option (Option JVal) := none
  hasBeforeSend : Bool := false
  hasAfterSend : Bool := false
  hasErrorHandler : Bool := false
  errorMsgTemplate : Option (Option JVal → String → String) := none
  defaultOptions : List (String × JVal) := []
  windowHostname : String := ""

/-- Arguments of FarFetch.setFetchOptions after destructuring: the two
mappings, the dynamic-options value forwarded by fetch, the
defaultOptionsUsed switch, whether a (truthy) files value was supplied,
and the remaining raw Fetch-API options collected by the rest pattern. -/
structure SFOArgs where
  data : List (String × JVal) := []
  URLParams : List (String × JVal) := []
  dynamicOptions : Option JVal := none
  defaultOptionsUsed : Bool := true
  files : Bool := false
  rest : List (String × JVal) := []

/-- Non-JSON body values the pipeline can install on the options:
multipart form data built from the files and the data mapping, a
URLSearchParams body, or a JSON text body. -/
inductive BodyVal where
  | formData (data : List (String × JVal))
  | urlSearchParams (data : List (String × JVal))
  | jsonStr (chars : List Char)

/-- Result of setFetchOptions: the URL query string, the final merged
options object handed to the transport, and the body assigned by the
pipeline, if any (`options.body = …`; a raw `body` key passed through
the options object is superseded by it). -/
structure SFOResult where
  queryString : List Char
  init : JVal
  bodyOverride : Option BodyVal

/-- JavaScript `options.headers?.['Content-Type']`: undefined unless the
options object has a headers object with that key (indexing a string,
array, number or null with this property name yields undefined). -/
def contentTypeOf (o : JVal) : Option JVal :=
  match jlookup (entriesOf o) "headers" with
  | some (.obj hs) => jlookup hs "Content-Type"
  | _ => none

/-- JavaScript `contentTypeHeader?.includes('application/x-www-form-urlencoded')`
restricted to the modelled case of a string (or absent) header value. -/
def isFormURLEncodedOf (o : JVal) : Bool :=
  match contentTypeOf o with
  | some (.str s) => containsSub "application/x-www-form-urlencoded".toList s.toList
  | _ => false

/-- The `method` property of an options object. -/
def methodOf (o : JVal) : Option JVal := jlookup (entriesOf o) "method"

/-- JavaScript strict comparison `options.method === m` for a method
name string `m`. -/
def methodIs (o : JVal) (m : String) : Bool :=
  match methodOf o with
  | some (.str s) => s = m
  | _ => false

/-- Property deletion on an association-list object body. -/
def deleteKey : List (String × JVal) → String → List (String × JVal)
  | [], _ => []
  | (k', v) :: rest, k => if k' = k then rest else (k', v) :: deleteKey rest k

/-- JavaScript `delete options.headers?.['Content-Type']`: removes the
Content-Type binding from the headers object when the options have one;
a no-op when headers is absent or not a plain object. -/
def deleteContentType (o : JVal) : JVal :=
  match o with
  | .obj es =>
    match jlookup es "headers" with
    | some (.obj hs) => .obj (setKey es "headers" (.obj (deleteKey hs "Content-Type")))
    | _ => o
  | _ => o

/-- The FarFetchError message thrown when `data` and `URLParams` are
combined on a query-string method (the multi-line template literal of
the source, including its line breaks and indentation). -/
def dataURLParamsErrMsg : String :=
  "Don\x27t use both \x27data\x27 and \x27URLParams\x27 together with GET, HEAD or \n          DELETE, as they\x27re redundant in these cases. Pick one or the other, as they will both have\n          the same effect, but prefer \x27data\x27 in this case for consistency."

/-- The option-merging stage of FarFetch.setFetchOptions (the
`if (defaultOptionsUsed) … else options = rest` block): when defaults
are used, clone the static defaults, validate and deep-merge a defined
dynamic-options value over them (TypeError when it is a defined
non-plain-object), then deep-merge the per-call rest options over the
result; when defaults are not used, the result is exactly the rest
options. -/
def mergeStage (cfg : FFConfig) (dynamicOptions : Option JVal)
    (defaultOptionsUsed : Bool) (rest : List (String × JVal)) : Except JSErr JVal :=
  if defaultOptionsUsed then
    let d0 := deepMerge (.obj []) (.obj cfg.defaultOptions)
    match dynamicOptions with
    | some dv =>
      if isPlainObject dv then
        .ok (deepMerge (deepMerge d0 dv) (.obj rest))
      else
        .error (.typeError "Return value of beforeSend() must be plain object")
    | none => .ok (deepMerge d0 (.obj rest))
  else
    .ok (.obj rest)

/-- Model of FarFetch.setFetchOptions (src/far-fetch.js): merge the
option sources, read the content type, build the URLParams query string,
then shape the request: a files value switches to a multipart body and
removes the Content-Type header; otherwise a non-empty data mapping
either becomes the query string on GET/DELETE/HEAD (rejecting the
redundant data+URLParams combination), or a URLSearchParams body under
an explicit form-urlencoded content type, or a JSON body with a forced
`Content-Type: application/json` header leaf on POST/PUT/PATCH. -/
def setFetchOptions (cfg : FFConfig) (a : SFOArgs) : Except JSErr SFOResult :=
  match mergeStage cfg a.dynamicOptions a.defaultOptionsUsed a.rest with
  | .error e => .error e
  | .ok options =>
    let isFormURLEncoded := isFormURLEncodedOf options
    let queryString := objectToQueryString a.URLParams
    if a.files then
      .ok ⟨queryString, deleteContentType options, some (.formData a.data)⟩
    else if a.data.length > 0 then
      if methodIs options "GET" || methodIs options "DELETE" || methodIs options "HEAD" then
        if a.data.length > 0 && a.URLParams.length > 0 then
          .error (.farFetch dataURLParamsErrMsg)
        else
          .ok ⟨objectToQueryString a.data, options, none⟩
      else if isFormURLEncoded then
        .ok ⟨queryString, options, some (.urlSearchParams a.data)⟩
      else if methodIs options "POST" || methodIs options "PUT" || methodIs options "PATCH" then
        let options' := deepMerge options
          (.obj [("headers", .obj [("Content-Type", .str "application/json")])])
        .ok ⟨queryString, options', some (.jsonStr (jsonStringify (.obj a.data)))⟩
      else
        .ok ⟨queryString, options, none⟩
    else
      .ok ⟨queryString, options, none⟩

/-- JavaScript strict comparison `method === m` where `method` is the
(possibly undefined) `options.method` value. -/
def methodValIs (method : Option JVal) (m : String) : Bool :=
  match method with
  | some (.str s) => s = m
  | _ => false

/-- Model of FarFetch.userMessage: the explicit errorMsg when truthy
(non-empty), else the configured template function applied to the method
and noun, else `Error <action> <noun>` with the default verb mapping
(GET/HEAD fetching, POST adding, PUT/PATCH updating, DELETE deleting,
empty action otherwise). -/
def userMessage (cfg : FFConfig) (method : Option JVal)
    (errorMsg errorMsgNoun : String) : String :=
  if errorMsg ≠ "" then errorMsg
  else
    match cfg.errorMsgTemplate with
    | some f => f method errorMsgNoun
    | none =>
      let action :=
        if methodValIs method "GET" || methodValIs method "HEAD" then "fetching"
        else if methodValIs method "POST" then "adding"
        else if methodValIs method "PUT" || methodValIs method "PATCH" then "updating"
        else if methodValIs method "DELETE" then "deleting"
        else ""
      "Error " ++ action ++ " " ++ errorMsgNoun

/-- Characters allowed after the first one in a URL scheme:
`[a-zA-Z\d+\-.]`. -/
def schemeTailChar (c : Char) : Bool :=
  c.isAlphanum || c = '+' || c = '-' || c = '.'

/-- Scans for the rest of a scheme followed by a colon. -/
def scanScheme : List Char → Bool
  | [] => false
  | c :: rest => if c = ':' then true else if schemeTailChar c then scanScheme rest else false

/-- Model of FarFetchHelper.isAbsoluteURL: matches the scheme pattern
`^[a-zA-Z][a-zA-Z\d+\-.]*:` and rejects Windows drive paths
`^[a-zA-Z]:\`. -/
def isAbsoluteURL (url : String) : Bool :=
  match url.toList with
  | [] => false
  | a :: rest =>
    let isWindowsPath :=
      match rest with
      | b :: c :: _ => a.isAlpha && b = ':' && c = '\\'
      | _ => false
    if isWindowsPath then false
    else a.isAlpha && scanScheme rest

/-- URL construction of FarFetch.fetch: append the query string, and
prepend the base URL (or the local base URL when the ambient hostname
matches it) when one is configured and the request URL is relative. -/
def buildFullURL (cfg : FFConfig) (url : String) (queryString : List Char) : String :=
  let fullURL := url ++ String.mk queryString
  if (cfg.baseURL ≠ "" || cfg.localBaseURL ≠ "") && !isAbsoluteURL url then
    let prependURL :=
      if cfg.localBaseURL ≠ "" && cfg.windowHostname = cfg.localBaseURL then
        cfg.localBaseURL
      else cfg.baseURL
    prependURL ++ fullURL
  else fullURL

/-- Observable events of one FarFetch.fetch call, in order: provider and
hook invocations, the transport invocation, and the error-handler
invocation with the `userMessage` and `response` of its payload. -/
inductive FetchEv where
  | dynamicOptionsInvoked
  | beforeSendInvoked
  | transportInvoked (fullURL : String)
  | afterSendInvoked
  | errorHandlerInvoked (userMessage : String) (response : Option Resp)
deriving Repr, DecidableEq

/-- Outcome of invoking the external transport: a response, or a thrown
exception (network failure, abort). -/
inductive TransportOutcome where
  | resp (r : Resp)
  | exn (msg : String)

/-- The dynamic-options value a fetch call passes to setFetchOptions:
the provider's return value when one is configured, undefined
otherwise. -/
def dynOf (cfg : FFConfig) : Option JVal :=
  match cfg.dynamicOptions with
  | some ret => ret
  | none => none

/-- Per-call request options of FarFetch.fetch after destructuring. -/
structure FetchReq where
  data : List (String × JVal) := []
  URLParams : List (String × JVal) := []
  files : Bool := false
  errorMsg : String := ""
  errorMsgNoun : String := ""
  globalBeforeSend : Bool := true
  globalAfterSend : Bool := true
  defaultOptionsUsed : Bool := true
  rest : List (String × JVal) := []

/-- A fetch call's result together with the trace of observable events. -/
structure FetchOutcome where
  result : Except JSErr Resp
  trace : List FetchEv

/-- JavaScript `response.ok`: status in the inclusive range 200–299. -/
def respOk (r : Resp) : Bool := 200 ≤ r.status && r.status ≤ 299

/-- The catch block of FarFetch.fetch: when a global error handler is
configured and an errorMsg or errorMsgNoun was supplied, invoke the
handler with the computed user message and the response (absent when the
transport threw before producing one); then re-raise — wrapping the
error in `FarFetchError({ error, response })` when it is an instance of
FarFetchError, and propagating it unchanged otherwise. -/
def handleCatch (cfg : FFConfig) (req : FetchReq) (options : JVal)
    (error : JSErr) (response : Option Resp) (tr : List FetchEv) : FetchOutcome :=
  let tr' :=
    if cfg.hasErrorHandler ∧ (req.errorMsg ≠ "" ∨ req.errorMsgNoun ≠ "") then
      tr ++ [.errorHandlerInvoked
        (userMessage cfg (methodOf options) req.errorMsg req.errorMsgNoun) response]
    else tr
  if isFarFetchErrInstance error then
    ⟨.error (.farFetchWrapped error response), tr'⟩
  else
    ⟨.error error, tr'⟩

/-- Model of FarFetch.fetch (src/far-fetch.js): invoke the
dynamic-options provider when configured, shape the options via
setFetchOptions (whose exceptions propagate before any transport
invocation and outside the try block), run the beforeSend hook, build
the full URL, invoke the transport, throw `FarFetchError('Server
error.')` on a non-2xx status, run the afterSend hook on success, and
route every exception raised inside the try block through the catch
block `handleCatch`. -/
def fetchModel (cfg : FFConfig) (url : String) (req : FetchReq)
    (transport : String → SFOResult → TransportOutcome) : FetchOutcome :=
  let tr0 : List FetchEv :=
    if cfg.dynamicOptions.isSome then [.dynamicOptionsInvoked] else []
  match setFetchOptions cfg
      ⟨req.data, req.URLParams, dynOf cfg, req.defaultOptionsUsed, req.files, req.rest⟩ with
  | .error e => ⟨.error e, tr0⟩
  | .ok sfo =>
    let tr1 := tr0 ++
      (if req.globalBeforeSend && cfg.hasBeforeSend then [.beforeSendInvoked] else [])
    let fullURL := buildFullURL cfg url sfo.queryString
    let tr2 := tr1 ++ [.transportInvoked fullURL]
    match transport fullURL sfo with
    | .resp r =>
      if respOk r then
        let tr3 := tr2 ++
          (if req.globalAfterSend && cfg.hasAfterSend then [.afterSendInvoked] else [])
        ⟨.ok r, tr3⟩
      else
        handleCatch cfg req sfo.init (.farFetch "Server error.") (some r) tr2
    | .exn msg =>
      handleCatch cfg req sfo.init (.transport msg) none tr2

/-- Lookup of one header leaf of an options object: defined exactly when
the options carry a plain headers object with that key. -/
def headerLookup (o : JVal) (k : String) : Option JVal :=
  match jlookup (entriesOf o) "headers" with
  | some (.obj hs) => jlookup hs k
  | _ => none

/-- Concrete GET request fixture with conflicting data and URLParams. -/
def conflictReq : FetchReq :=
  { data := [("a", JVal.num 1)], URLParams := [("b", JVal.num 2)],
    rest := [("method", JVal.str "GET")] }

/-- Concrete server-error transport fixture. -/
def status500Transport : String → SFOResult → TransportOutcome := fun _ _ => .resp ⟨500⟩

/-- Recognizes error-handler invocation events in a trace. -/
def isHandlerEv : FetchEv → Bool
  | .errorHandlerInvoked _ _ => true
  | _ => false

/-- The claim's default verb mapping, keyed by the effective method
value: fetching for GET/HEAD, adding for POST, updating for PUT/PATCH,
deleting for DELETE. -/
def claimDefaultVerb (method : Option JVal) : Option String :=
  match method with
  | some (.str "GET") => some "fetching"
  | some (.str "HEAD") => some "fetching"
  | some (.str "POST") => some "adding"
  | some (.str "PUT") => some "updating"
  | some (.str "PATCH") => some "updating"
  | some (.str "DELETE") => some "deleting"
  | _ => none

/-- Concrete 400-response transport fixture. -/
def status400Transport : String → SFOResult → TransportOutcome := fun _ _ => .resp ⟨400⟩

/-- Concrete POST request fixture carrying an error-message noun. -/
def nounReq : FetchReq := { errorMsgNoun := "user", rest := [("method", JVal.str "POST")] }

/-- Concrete client fixture with a configured global error handler. -/
def handlerCfg : FFConfig := { hasErrorHandler := true }

/-- Decimal digit test on a character. -/
def isDigitCh (c : Char) : Bool := 48 ≤ c.toNat && c.toNat ≤ 57

/-- Value of a decimal digit character. -/
def digitVal (c : Char) : Nat := c.toNat - 48

/-- Longest digit prefix and the remainder. -/
def takeDigits : List Char → (List Char × List Char)
  | [] => ([], [])
  | c :: cs =>
    if isDigitCh c then
      ((c :: (takeDigits cs).1), (takeDigits cs).2)
    else ([], c :: cs)

/-- Numeric value of a digit sequence, most significant first. -/
def natFromDigits (ds : List Char) : Nat :=
  ds.foldl (fun a c => a * 10 + digitVal c) 0

/-- True when the input does not start with a decimal digit (so a number
literal just before it is self-delimiting). -/
def noDigitHead : List Char → Bool
  | [] => true
  | c :: _ => !isDigitCh c

/-- Hexadecimal digit value of a character, if it is one. -/
def hexVal? (c : Char) : Option Nat :=
  if 48 ≤ c.toNat ∧ c.toNat ≤ 57 then some (c.toNat - 48)
  else if 65 ≤ c.toNat ∧ c.toNat ≤ 70 then some (c.toNat - 55)
  else if 97 ≤ c.toNat ∧ c.toNat ≤ 102 then some (c.toNat - 87)
  else none

/-- Value of four hex digits, if they all are ones. -/
def hex4 (h1 h2 h3 h4 : Char) : Option Nat :=
  match hexVal? h1, hexVal? h2, hexVal? h3, hexVal? h4 with
  | some a, some b, some c, some d => some (((a * 16 + b) * 16 + c) * 16 + d)
  | _, _, _, _ => none

/-- The character a single-letter JSON escape denotes, if any. -/
def escCharFor (e : Char) : Option Char :=
  if e = '"' then some '"'
  else if e = '\\' then some '\\'
  else if e = '/' then some '/'
  else if e = 'b' then some '\x08'
  else if e = 't' then some '\x09'
  else if e = 'n' then some '\x0a'
  else if e = 'f' then some '\x0c'
  else if e = 'r' then some '\x0d'
  else none

/-- Parser for the body of a JSON string literal (the part after the
opening quote): unescapes until the closing quote and returns the
content together with the remaining input. -/
def parseStringBody : List Char → Option (List Char × List Char)
  | [] => none
  | c :: cs =>
    if c = '"' then some ([], cs)
    else if c = '\\' then
      match cs with
      | [] => none
      | e :: cs' =>
        if e = 'u' then
          match cs' with
          | h1 :: h2 :: h3 :: h4 :: cs'' =>
            match hex4 h1 h2 h3 h4 with
            | some n => (parseStringBody cs'').map (fun r => (Char.ofNat n :: r.1, r.2))
            | none => none
          | _ => none
        else
          match escCharFor e with
          | some d => (parseStringBody cs').map (fun r => (d :: r.1, r.2))
          | none => none
    else (parseStringBody cs).map (fun r => (c :: r.1, r.2))

mutual

/-- Fuel-indexed recursive-descent parser for the JSON texts produced by
`jsonStringify` (no whitespace, integer numbers): parses one value and
returns it with the remaining input. -/
def parseVal : Nat → List Char → Option (JVal × List Char)
  | 0, _ => none
  | fuel + 1, cs =>
    match cs with
    | [] => none
    | c :: cs' =>
      if c = '"' then
        (parseStringBody cs').map (fun r => (.str (String.mk r.1), r.2))
      else if c = '[' then
        match cs' with
        | [] => none
        | d :: cs'' =>
          if d = ']' then some (.arr [], cs'')
          else (parseElems fuel cs').map (fun r => (.arr r.1, r.2))
      else if c = '\x7b' then
        match cs' with
        | [] => none
        | d :: cs'' =>
          if d = '\x7d' then some (.obj [], cs'')
          else (parseFields fuel cs').map (fun r => (.obj r.1, r.2))
      else if c = '-' then
        let p := takeDigits cs'
        if p.1 = [] then none else some (.num (-(natFromDigits p.1 : Int)), p.2)
      else if isDigitCh c then
        let p := takeDigits (c :: cs')
        some (.num (natFromDigits p.1), p.2)
      else if lPre ['n', 'u', 'l', 'l'] (c :: cs') then some (.null, cs'.drop 3)
      else if lPre ['t', 'r', 'u', 'e'] (c :: cs') then some (.bool true, cs'.drop 3)
      else if lPre ['f', 'a', 'l', 's', 'e'] (c :: cs') then some (.bool false, cs'.drop 4)
      else none
termination_by fuel _ => fuel

/-- Parses the non-empty comma-separated element list of a JSON array,
consuming the closing bracket. -/
def parseElems : Nat → List Char → Option (List JVal × List Char)
  | 0, _ => none
  | fuel + 1, cs =>
    match parseVal fuel cs with
    | none => none
    | some (v, rest) =>
      match rest with
      | [] => none
      | d :: rest' =>
        if d = ',' then (parseElems fuel rest').map (fun r => (v :: r.1, r.2))
        else if d = ']' then some ([v], rest')
        else none
termination_by fuel _ => fuel

/-- Parses the non-empty comma-separated field list of a JSON object,
consuming the closing brace. -/
def parseFields : Nat → List Char → Option (List (String × JVal) × List Char)
  | 0, _ => none
  | fuel + 1, cs =>
    match cs with
    | [] => none
    | c :: cs' =>
      if c = '"' then
        match parseStringBody cs' with
        | none => none
        | some (kc, rest) =>
          match rest with
          | [] => none
          | d :: rest' =>
            if d = ':' then
              match parseVal fuel rest' with
              | none => none
              | some (v, rest2) =>
                match rest2 with
                | [] => none
                | e :: rest3 =>
                  if e = ',' then
                    (parseFields fuel rest3).map (fun r => ((String.mk kc, v) :: r.1, r.2))
                  else if e = '\x7d' then some ([(String.mk kc, v)], rest3)
                  else none
            else none
      else none
termination_by fuel _ => fuel

end

mutual

/-- Fuel sufficient for `parseVal` on the serialization of a value. -/
def Nval : JVal → Nat
  | .arr (x :: xs) => 1 + Nelems (x :: xs)
  | .obj (f :: fs) => 1 + Nfields (f :: fs)
  | _ => 1
termination_by v => sizeOf v

/-- Fuel sufficient for `parseElems` on a serialized element list. -/
def Nelems : List JVal → Nat
  | [] => 0
  | v :: vs => 1 + Nval v + Nelems vs
termination_by vs => sizeOf vs

/-- Fuel sufficient for `parseFields` on a serialized field list. -/
def Nfields : List (String × JVal) → Nat
  | [] => 0
  | (_, v) :: fs => 1 + Nval v + Nfields fs
termination_by fs => sizeOf fs

end

def jsonParse (s : String) : Option JVal :=
  match parseVal (2 * s.length + 1) s.toList with
  | some (v, []) => some v
  | _ => none

/-- Decoder for a form-urlencoded component into its byte sequence:
`+` yields the space byte, `%XX` a hex-coded byte, any other character
its own code point (valid for the ASCII output of the encoder). -/
def percentDecodeBytes : List Char → Option (List Nat)
  | [] => some []
  | c :: cs =>
    if c = '%' then
      match cs with
      | c1 :: c2 :: cs2 =>
        match hexVal? c1, hexVal? c2 with
        | some h1, some h2 => (percentDecodeBytes cs2).map fun bs => (16 * h1 + h2) :: bs
        | _, _ => none
      | _ => none
    else if c = '+' then (percentDecodeBytes cs).map fun bs => 32 :: bs
    else (percentDecodeBytes cs).map fun bs => c.toNat :: bs

/-- UTF-8 decoder on byte sequences (1- to 4-byte forms). -/
def utf8Decode : List Nat → Option (List Char)
  | [] => some []
  | b :: bs =>
    if b < 128 then (utf8Decode bs).map fun cs => Char.ofNat b :: cs
    else if b < 224 then
      if 1 ≤ bs.length ∧ 192 ≤ b ∧ 128 ≤ bs.getD 0 0 ∧ bs.getD 0 0 < 192 then
        (utf8Decode (bs.drop 1)).map fun cs =>
          Char.ofNat ((b - 192) * 64 + (bs.getD 0 0 - 128)) :: cs
      else none
    else if b < 240 then
      if 2 ≤ bs.length ∧ 128 ≤ bs.getD 0 0 ∧ bs.getD 0 0 < 192
          ∧ 128 ≤ bs.getD 1 0 ∧ bs.getD 1 0 < 192 then
        (utf8Decode (bs.drop 2)).map fun cs =>
          Char.ofNat ((b - 224) * 4096 + (bs.getD 0 0 - 128) * 64
            + (bs.getD 1 0 - 128)) :: cs
      else none
    else
      if 3 ≤ bs.length ∧ b < 248 ∧ 128 ≤ bs.getD 0 0 ∧ bs.getD 0 0 < 192
          ∧ 128 ≤ bs.getD 1 0 ∧ bs.getD 1 0 < 192
          ∧ 128 ≤ bs.getD 2 0 ∧ bs.getD 2 0 < 192 then
        (utf8Decode (bs.drop 3)).map fun cs =>
          Char.ofNat ((b - 240) * 262144 + (bs.getD 0 0 - 128) * 4096
            + (bs.getD 1 0 - 128) * 64 + (bs.getD 2 0 - 128)) :: cs
      else none
termination_by l => l.length
decreasing_by all_goals simp_wf <;> omega

/-- UTF-8 encoding of a character sequence. -/
def utf8Encode : List Char → List Nat
  | [] => []
  | c :: cs => utf8Bytes c ++ utf8Encode cs

/-- Full decoder for a form-urlencoded component. -/
def decodeComponent (cs : List Char) : Option (List Char) :=
  (percentDecodeBytes cs).bind utf8Decode

/-- Prepend a character to the first group of a group list. -/
def consHead (c : Char) : List (List Char) → List (List Char)
  | [] => [[c]]
  | g :: gs => (c :: g) :: gs

/-- Split a character sequence at every occurrence of a separator. -/
def splitSep (sep : Char) : List Char → List (List Char)
  | [] => [[]]
  | c :: cs => if c = sep then [] :: splitSep sep cs else consHead c (splitSep sep cs)

/-- Split a character sequence at the first `=`, if any. -/
def splitFirstEq : List Char → Option (List Char × List Char)
  | [] => none
  | c :: cs =>
    if c = '=' then some ([], cs)
    else (splitFirstEq cs).map fun p => (c :: p.1, p.2)

/-- Decode every `key=value` group of a query string. -/
def decodePairs : List (List Char) → Option (List (List Char × List Char))
  | [] => some []
  | g :: gs =>
    (splitFirstEq g).bind fun p =>
    (decodeComponent p.1).bind fun dk =>
    (decodeComponent p.2).bind fun dv =>
    (decodePairs gs).map fun rest => (dk, dv) :: rest

/-- Decoder for a `?`-prefixed form-urlencoded query string into its
key-value pairs. -/
def decodeQueryString : List Char → Option (List (List Char × List Char))
  | [] => none
  | c :: rest => if c = '?' then decodePairs (splitSep '&' rest) else none

/-- A mutable JavaScript value in the heap model: a primitive (or other
non-plain-object value, stored immutably) or a reference to a heap cell
holding a plain object. -/
inductive HVal where
  | prim (v : JVal)
  | ref (r : Nat)

/-- A heap cell: the property list of one plain object, in insertion
order. -/
abbrev HCell := List (String × HVal)

/-- The heap: cells indexed by allocation order; allocation appends. -/
abbrev Heap := List HCell

/-- First binding of a key in a cell. -/
def hlookup : List (String × HVal) → String → Option HVal
  | [], _ => none
  | (k, v) :: rest, key => if k = key then some v else hlookup rest key

/-- JavaScript property assignment on a cell: overwrite in place if the
key exists, append otherwise. -/
def setKeyH : List (String × HVal) → String → HVal → List (String × HVal)
  | [], k, v => [(k, v)]
  | (k', v') :: rest, k, v =>
    if k' = k then (k, v) :: rest else (k', v') :: setKeyH rest k v

/-- JavaScript `delete` of a property on a cell. -/
def deleteKeyH : List (String × HVal) → String → List (String × HVal)
  | [], _ => []
  | (k', v) :: rest, k => if k' = k then rest else (k', v) :: deleteKeyH rest k

/-- All references in the value are at least `n` (freshly allocated
relative to a heap of length `n`). -/
def refLB (n : Nat) : HVal → Bool
  | .prim _ => true
  | .ref r => n ≤ r

mutual

/-- Read back the immutable JSON value an object graph denotes,
fuel-bounded. -/
def readVal : Nat → Heap → HVal → Option JVal
  | 0, _, _ => none
  | _ + 1, _, .prim v => some v
  | f + 1, h, .ref r =>
    match List.get? h r with
    | some cell => (readFields f h cell).map .obj
    | none => none
termination_by f _ hv => (f, sizeOf hv)

/-- Read back the fields of one cell. -/
def readFields : Nat → Heap → List (String × HVal) → Option (List (String × JVal))
  | _, _, [] => some []
  | f, h, (k, hv) :: rest =>
    match readVal f h hv, readFields f h rest with
    | some v, some vs => some ((k, v) :: vs)
    | _, _ => none
termination_by f _ cell => (f, sizeOf cell)

end

mutual

/-- Allocate fresh cells holding a JSON value: plain objects become new
cells (depth first, fields in order), everything else is stored inline.
Models the clone deepmerge performs on every merged object. -/
def allocVal : JVal → Heap → Heap × HVal
  | .obj es, h =>
    let p := allocFields es h
    (p.1 ++ [p.2], .ref p.1.length)
  | v, h => (h, .prim v)
termination_by v _ => sizeOf v

/-- Allocate the values of a field list, left to right. -/
def allocFields : List (String × JVal) → Heap → Heap × List (String × HVal)
  | [], h => (h, [])
  | (k, v) :: es, h =>
    let p := allocVal v h
    let q := allocFields es p.1
    (q.1, (k, p.2) :: q.2)
termination_by es _ => sizeOf es

end

/-- `options.headers?.[k]`-style field read through a reference. -/
def heapLookupField (h : Heap) (r : Nat) (k : String) : Option HVal :=
  match List.get? h r with
  | some cell => hlookup cell k
  | none => none

/-- Property assignment `obj[k] = v` on the cell behind a reference. -/
def setField (h : Heap) (r : Nat) (k : String) (v : HVal) : Heap :=
  match List.get? h r with
  | some cell => h.set r (setKeyH cell k v)
  | none => h

/-- `delete options.headers?.['Content-Type']` in the heap model: a
write to the cell behind the headers field when it is an object
reference, a no-op otherwise. -/
def deleteCT (h : Heap) (r : Nat) : Heap :=
  match heapLookupField h r "headers" with
  | some (.ref rh) =>
    match List.get? h rh with
    | some cell => h.set rh (deleteKeyH cell "Content-Type")
    | none => h
  | _ => h

/-- Arguments of setFetchOptions in the heap model; the per-call rest
options live in the heap (they are the caller's object). -/
structure SFOHArgs where
  data : List (String × JVal) := []
  URLParams : List (String × JVal) := []
  dynamicOptions : Option JVal := none
  defaultOptionsUsed : Bool := true
  files : Bool := false

/-- The mutation phase of setFetchOptions on the options object behind
reference `R`: body assignment and Content-Type removal for file
uploads, the redundant data+URLParams error, the URLSearchParams body,
or the forced-JSON re-merge (allocating a fresh merged object) with a
JSON body; `none` only on fuel exhaustion. -/
def mutatePhase (F : Nat) (h : Heap) (R : Nat) (a : SFOHArgs) :
    Option (Heap × Except JSErr Nat) :=
  match readVal F h (.ref R) with
  | none => none
  | some options =>
    if a.files then
      let h1 := setField h R "body" (.prim (.str "[FormData]"))
      some (deleteCT h1 R, .ok R)
    else if a.data.length > 0 then
      if methodIs options "GET" || methodIs options "DELETE"
          || methodIs options "HEAD" then
        if a.data.length > 0 && a.URLParams.length > 0 then
          some (h, .error (.farFetch dataURLParamsErrMsg))
        else
          some (h, .ok R)
      else if isFormURLEncodedOf options then
        some (setField h R "body" (.prim (.str "[URLSearchParams]")), .ok R)
      else if methodIs options "POST" || methodIs options "PUT"
          || methodIs options "PATCH" then
        let merged := deepMerge options
          (.obj [("headers", .obj [("Content-Type", .str "application/json")])])
        let p := allocVal merged h
        match p.2 with
        | .ref R2 =>
          some (setField p.1 R2 "body"
            (.prim (.str (String.mk (jsonStringify (.obj a.data))))), .ok R2)
        | .prim _ => none
      else
        some (h, .ok R)
    else
      some (h, .ok R)

/-- Heap model of FarFetch.setFetchOptions: with defaults in use, the
stored defaults and the per-call rest object are read (never written)
and their deep merge is allocated in fresh cells, which the mutation
phase then operates on; without defaults, the options alias the caller's
rest object and the mutation phase operates on it in place. `none` only
on fuel exhaustion. -/
def setFetchOptionsHeap (F : Nat) (h0 : Heap) (cfgRef restRef : Nat)
    (a : SFOHArgs) : Option (Heap × Except JSErr Nat) :=
  if a.defaultOptionsUsed then
    match readVal F h0 (.ref cfgRef), readVal F h0 (.ref restRef) with
    | some vCfg, some vRest =>
      let d0 := deepMerge (.obj []) vCfg
      match a.dynamicOptions with
      | some dv =>
        if isPlainObject dv then
          let p := allocVal (deepMerge (deepMerge d0 dv) vRest) h0
          match p.2 with
          | .ref R => mutatePhase F p.1 R a
          | .prim _ => none
        else
          some (h0, .error
            (.typeError "Return value of beforeSend() must be plain object"))
      | none =>
        let p := allocVal (deepMerge d0 vRest) h0
        match p.2 with
        | .ref R => mutatePhase F p.1 R a
        | .prim _ => none
    | _, _ => none
  else
    mutatePhase F h0 restRef a

example :
    deepMerge (.obj [("a", .num 1), ("b", .num 2)]) (.obj [("b", .num 3)])
      = .obj [("a", .num 1), ("b", .num 3)] := by
  simp [deepMerge, mergeEntries, jlookup, setKey, entriesOf, isMergeableJ]

example :
    deepMerge (.obj [("h", .obj [("x", .num 1)])]) (.obj [("h", .obj [("y", .num 2)])])
      = .obj [("h", .obj [("x", .num 1), ("y", .num 2)])] := by
  simp [deepMerge, mergeEntries, jlookup, setKey, entriesOf, isMergeableJ]

example :
    deepMerge (.obj [("a", .arr [.num 1])]) (.obj [("a", .arr [.num 2])])
      = .obj [("a", .arr [.num 1, .num 2])] := by
  simp [deepMerge, mergeEntries, jlookup, setKey, entriesOf, isMergeableJ]

theorem mergeEntries_cons (t : JVal) (dest : List (String × JVal))
    (k : String) (v : JVal) (rest : List (String × JVal)) :
    mergeEntries t dest ((k, v) :: rest)
      = mergeEntries t (setKey dest k (mergedValue t k v)) rest := by
  simp [mergeEntries, mergedValue]

theorem deepMerge_obj_obj (ts ss : List (String × JVal)) :
    deepMerge (.obj ts) (.obj ss) = .obj (mergeEntries (.obj ts) ts ss) := by
  simp [deepMerge, entriesOf]

theorem jlookup_setKey_self (l : List (String × JVal)) (k : String) (v : JVal) :
    jlookup (setKey l k v) k = some v := by
  induction l with
  | nil => simp [setKey, jlookup]
  | cons hd tl ih =>
    obtain ⟨k', v'⟩ := hd
    by_cases h : k' = k
    · subst h; simp [setKey, jlookup]
    · simp [setKey, jlookup, h, ih]

theorem jlookup_setKey_ne (l : List (String × JVal)) (k k' : String) (v : JVal)
    (h : k' ≠ k) : jlookup (setKey l k' v) k = jlookup l k := by
  induction l with
  | nil => simp [setKey, jlookup, h]
  | cons hd tl ih =>
    obtain ⟨k₀, v₀⟩ := hd
    by_cases h₀ : k₀ = k'
    · subst h₀; simp [setKey, jlookup, h]
    · simp [setKey, jlookup, h₀, ih]

theorem jlookup_eq_none_of_not_mem (l : List (String × JVal)) (k : String)
    (h : k ∉ l.map Prod.fst) : jlookup l k = none := by
  induction l with
  | nil => simp [jlookup]
  | cons hd tl ih =>
    obtain ⟨k', v'⟩ := hd
    simp only [List.map_cons, List.mem_cons] at h
    push_neg at h
    have hne : k' ≠ k := fun hq => h.1 hq.symm
    simp [jlookup, hne, ih h.2]

theorem mem_of_jlookup_eq_some (l : List (String × JVal)) (k : String) (v : JVal)
    (h : jlookup l k = some v) : k ∈ l.map Prod.fst := by
  induction l with
  | nil => simp [jlookup] at h
  | cons hd tl ih =>
    obtain ⟨k', v'⟩ := hd
    by_cases hk : k' = k
    · subst hk; simp
    · simp only [jlookup, if_neg hk] at h
      simp [ih h]

/-- Unfolded description of a completed deepmerge object loop: each key
that occurs in the (duplicate-free) source list gets `mergedValue`, every
other key keeps its destination binding. -/
theorem jlookup_mergeEntries (t : JVal) (ss : List (String × JVal))
    (h : (ss.map Prod.fst).Nodup) (dest : List (String × JVal)) (k : String) :
    jlookup (mergeEntries t dest ss) k =
      match jlookup ss k with
      | some v => some (mergedValue t k v)
      | none => jlookup dest k := by
  induction ss generalizing dest with
  | nil => simp [mergeEntries, jlookup]
  | cons hd tl ih =>
    obtain ⟨k', v'⟩ := hd
    simp only [List.map_cons, List.nodup_cons] at h
    rw [mergeEntries_cons]
    rw [ih h.2]
    by_cases hk : k' = k
    · subst hk
      have htl : jlookup tl k' = none :=
        jlookup_eq_none_of_not_mem tl k' h.1
      simp [jlookup, htl, jlookup_setKey_self]
    · simp only [jlookup, if_neg hk]
      cases hlk : jlookup tl k with
      | some v => simp
      | none => simp [jlookup_setKey_ne dest k k' _ hk]

theorem jlookup_deepMerge_of_not_mem (ts ss : List (String × JVal)) (k : String)
    (hnd : (ss.map Prod.fst).Nodup) (hk : k ∉ ss.map Prod.fst) :
    jlookup (entriesOf (deepMerge (.obj ts) (.obj ss))) k = jlookup ts k := by
  rw [deepMerge_obj_obj]
  simp only [entriesOf]
  rw [jlookup_mergeEntries _ _ hnd]
  simp [jlookup_eq_none_of_not_mem ss k hk]

theorem jlookup_deepMerge_source_not_mergeable (ts ss : List (String × JVal))
    (k : String) (v : JVal) (hnd : (ss.map Prod.fst).Nodup)
    (hs : jlookup ss k = some v) (hm : isMergeableJ v = false) :
    jlookup (entriesOf (deepMerge (.obj ts) (.obj ss))) k = some v := by
  rw [deepMerge_obj_obj]
  simp only [entriesOf]
  rw [jlookup_mergeEntries _ _ hnd]
  simp [hs, mergedValue, hm]

theorem jlookup_deepMerge_source_only (ts ss : List (String × JVal))
    (k : String) (v : JVal) (hnd : (ss.map Prod.fst).Nodup)
    (ht : jlookup ts k = none) (hs : jlookup ss k = some v) :
    jlookup (entriesOf (deepMerge (.obj ts) (.obj ss))) k = some v := by
  rw [deepMerge_obj_obj]
  simp only [entriesOf]
  rw [jlookup_mergeEntries _ _ hnd]
  simp [hs, mergedValue, entriesOf, ht]

theorem jlookup_deepMerge_both_mergeable (ts ss : List (String × JVal))
    (k : String) (tv sv : JVal) (hnd : (ss.map Prod.fst).Nodup)
    (ht : jlookup ts k = some tv) (hs : jlookup ss k = some sv)
    (hm : isMergeableJ sv = true) :
    jlookup (entriesOf (deepMerge (.obj ts) (.obj ss))) k
      = some (deepMerge tv sv) := by
  rw [deepMerge_obj_obj]
  simp only [entriesOf]
  rw [jlookup_mergeEntries _ _ hnd]
  simp [hs, mergedValue, entriesOf, ht, hm]

example : jsonStringify (.obj [("a", .arr [.num 1, .num (-2)]), ("b", .str "x")])
    = "\x7b\"a\":[1,-2],\"b\":\"x\"\x7d".toList := by
  simp [jsonStringify, jsonStringifyFields, jsonStringifyField, jsonStringifyElems,
    escString, escapeChar, intDigits, natDigits, digitCh]

example : objectToQueryString [] = [] := by rfl

example :
    objectToQueryString [("a b", .num 5), ("c", .arr [.num 1])]
      = "?a+b=5&c=%5B1%5D".toList := by
  simp [objectToQueryString, serializePairs, serializePair, encodeComponent,
    encodeComponentChar, urlKeepChar, utf8Bytes, percentByte, hexDigitUpper,
    queryValueString, typeofIsObject, jsonStringify, jsonStringifyElems,
    intDigits, natDigits, digitCh]

example : containsSub "charset".toList "application/x-www-form-urlencoded;charset=UTF-8".toList = true := by decide

/-- C6: for every call with defaultOptionsUsed false, the merge result is
exactly the per-call raw transport options, and neither the static
default options nor the dynamic-options provider's result contributes
anything to the options handed to the transport (the whole
setFetchOptions result is independent of both). -/
theorem useDefaults_false_merge_is_rest (cfg : FFConfig) (a : SFOArgs)
    (h : a.defaultOptionsUsed = false) :
    mergeStage cfg a.dynamicOptions a.defaultOptionsUsed a.rest = .ok (.obj a.rest) ∧
    ∀ (d : List (String × JVal)) (dyn : Option JVal),
      setFetchOptions { cfg with defaultOptions := d } { a with dynamicOptions := dyn }
        = setFetchOptions cfg a := by
  constructor
  · simp [mergeStage, h]
  · intro d dyn
    simp [setFetchOptions, mergeStage, h]

theorem useDefaults_false_merge_is_rest_witness :
    (SFOArgs.mk [] [] (some (.num 2)) false false [("method", JVal.str "GET")]).defaultOptionsUsed
        = false ∧
    (mergeStage { defaultOptions := [("cache", JVal.str "reload")] }
        (SFOArgs.mk [] [] (some (.num 2)) false false [("method", JVal.str "GET")]).dynamicOptions
        (SFOArgs.mk [] [] (some (.num 2)) false false [("method", JVal.str "GET")]).defaultOptionsUsed
        (SFOArgs.mk [] [] (some (.num 2)) false false [("method", JVal.str "GET")]).rest
      = .ok (.obj [("method", JVal.str "GET")]) ∧
    ∀ (d : List (String × JVal)) (dyn : Option JVal),
      setFetchOptions { ({ defaultOptions := [("cache", JVal.str "reload")] } : FFConfig) with defaultOptions := d }
          { (SFOArgs.mk [] [] (some (.num 2)) false false [("method", JVal.str "GET")]) with dynamicOptions := dyn }
        = setFetchOptions { defaultOptions := [("cache", JVal.str "reload")] }
            (SFOArgs.mk [] [] (some (.num 2)) false false [("method", JVal.str "GET")])) :=
  ⟨rfl, useDefaults_false_merge_is_rest _ _ rfl⟩

/-- C7: for every call with defaultOptionsUsed true and a configured
dynamic-options provider returning a defined non-plain-object value, the
call fails with the TypeError caller-configuration error before the
transport is invoked and without invoking the error handler. -/
theorem dynamic_non_object_raises_type_error (cfg : FFConfig) (url : String)
    (req : FetchReq) (transport : String → SFOResult → TransportOutcome) (v : JVal)
    (hprov : cfg.dynamicOptions = some (some v)) (hv : isPlainObject v = false)
    (hused : req.defaultOptionsUsed = true) :
    (fetchModel cfg url req transport).result
        = .error (.typeError "Return value of beforeSend() must be plain object") ∧
    (∀ u, FetchEv.transportInvoked u ∉ (fetchModel cfg url req transport).trace) ∧
    (∀ m r, FetchEv.errorHandlerInvoked m r ∉ (fetchModel cfg url req transport).trace) := by
  have hfe : fetchModel cfg url req transport
      = ⟨.error (.typeError "Return value of beforeSend() must be plain object"),
         [.dynamicOptionsInvoked]⟩ := by
    simp [fetchModel, setFetchOptions, mergeStage, dynOf, hprov, hused, hv]
  rw [hfe]
  refine ⟨rfl, ?_, ?_⟩
  · intro u; simp
  · intro m r; simp

theorem dynamic_non_object_raises_type_error_witness :
    ({ dynamicOptions := some (some (.num 2)) } : FFConfig).dynamicOptions
        = some (some (.num 2)) ∧
    isPlainObject (.num 2) = false ∧
    ({ rest := [("method", JVal.str "GET")] } : FetchReq).defaultOptionsUsed = true ∧
    ((fetchModel { dynamicOptions := some (some (.num 2)) } "http://example.com/users"
        { rest := [("method", JVal.str "GET")] } (fun _ _ => .resp ⟨200⟩)).result
        = .error (.typeError "Return value of beforeSend() must be plain object") ∧
    (∀ u, FetchEv.transportInvoked u ∉ (fetchModel { dynamicOptions := some (some (.num 2)) }
        "http://example.com/users" { rest := [("method", JVal.str "GET")] }
        (fun _ _ => .resp ⟨200⟩)).trace) ∧
    (∀ m r, FetchEv.errorHandlerInvoked m r ∉ (fetchModel { dynamicOptions := some (some (.num 2)) }
        "http://example.com/users" { rest := [("method", JVal.str "GET")] }
        (fun _ _ => .resp ⟨200⟩)).trace)) :=
  ⟨rfl, rfl, rfl, dynamic_non_object_raises_type_error _ _ _ _ _ rfl rfl rfl⟩

theorem handleCatch_trace (cfg : FFConfig) (req : FetchReq) (o : JVal) (e : JSErr)
    (resp : Option Resp) (tr : List FetchEv) :
    (handleCatch cfg req o e resp tr).trace
      = tr ++ (if cfg.hasErrorHandler ∧ (req.errorMsg ≠ "" ∨ req.errorMsgNoun ≠ "") then
          [.errorHandlerInvoked (userMessage cfg (methodOf o) req.errorMsg req.errorMsgNoun) resp]
        else []) := by
  unfold handleCatch
  split <;> split <;> simp_all

theorem handleCatch_result (cfg : FFConfig) (req : FetchReq) (o : JVal) (e : JSErr)
    (resp : Option Resp) (tr : List FetchEv) :
    (handleCatch cfg req o e resp tr).result
      = .error (if isFarFetchErrInstance e then .farFetchWrapped e resp else e) := by
  unfold handleCatch
  split <;> split <;> simp_all

/-- C10: with defaultOptionsUsed false and a configured dynamic-options
provider, the provider is still invoked at the start of the call (it is
the first trace event), its return value is never validated or merged
(even a defined non-plain-object return raises nothing: the merge result
is exactly the per-call rest options), and the options handed to the
transport are independent of the provider's return value and of the
static defaults. -/
theorem useDefaults_false_provider_still_invoked (cfg : FFConfig) (url : String)
    (req : FetchReq) (transport : String → SFOResult → TransportOutcome)
    (r : Option JVal) (hprov : cfg.dynamicOptions = some r)
    (hused : req.defaultOptionsUsed = false) :
    (fetchModel cfg url req transport).trace.head? = some .dynamicOptionsInvoked ∧
    mergeStage cfg (dynOf cfg) req.defaultOptionsUsed req.rest = .ok (.obj req.rest) ∧
    ∀ (r' : Option JVal) (d : List (String × JVal)),
      setFetchOptions { cfg with dynamicOptions := some r', defaultOptions := d }
          ⟨req.data, req.URLParams,
            dynOf { cfg with dynamicOptions := some r', defaultOptions := d },
            req.defaultOptionsUsed, req.files, req.rest⟩
        = setFetchOptions cfg
            ⟨req.data, req.URLParams, dynOf cfg, req.defaultOptionsUsed, req.files, req.rest⟩ := by
  refine ⟨?_, by simp [mergeStage, hused], ?_⟩
  · rw [fetchModel]
    simp only [hprov, Option.isSome_some, if_true]
    cases hsfo : setFetchOptions cfg
        ⟨req.data, req.URLParams, dynOf cfg, req.defaultOptionsUsed, req.files, req.rest⟩ with
    | error e => simp
    | ok sfo =>
      simp only []
      cases htr : transport (buildFullURL cfg url sfo.queryString) sfo with
      | resp rr =>
        by_cases hok : respOk rr
        · simp [hok]
        · simp only [hok, Bool.false_eq_true, if_false, handleCatch_trace]
          simp
      | exn msg =>
        simp only [handleCatch_trace]
        simp
  · intro r' d
    simp [setFetchOptions, mergeStage, hused]

theorem useDefaults_false_provider_still_invoked_witness :
    ({ dynamicOptions := some (some (.num 7)) } : FFConfig).dynamicOptions
        = some (some (.num 7)) ∧
    ({ defaultOptionsUsed := false, rest := [("method", JVal.str "GET")] } : FetchReq).defaultOptionsUsed = false ∧
    ((fetchModel { dynamicOptions := some (some (.num 7)) } "http://example.com/users"
        { defaultOptionsUsed := false, rest := [("method", JVal.str "GET")] }
        (fun _ _ => .resp ⟨200⟩)).trace.head? = some .dynamicOptionsInvoked ∧
    mergeStage { dynamicOptions := some (some (.num 7)) }
        (dynOf { dynamicOptions := some (some (.num 7)) })
        ({ defaultOptionsUsed := false, rest := [("method", JVal.str "GET")] } : FetchReq).defaultOptionsUsed
        ({ defaultOptionsUsed := false, rest := [("method", JVal.str "GET")] } : FetchReq).rest
      = .ok (.obj [("method", JVal.str "GET")]) ∧
    ∀ (r' : Option JVal) (d : List (String × JVal)),
      setFetchOptions { ({ dynamicOptions := some (some (.num 7)) } : FFConfig) with
          dynamicOptions := some r', defaultOptions := d }
          ⟨({ defaultOptionsUsed := false, rest := [("method", JVal.str "GET")] } : FetchReq).data,
            ({ defaultOptionsUsed := false, rest := [("method", JVal.str "GET")] } : FetchReq).URLParams,
            dynOf { ({ dynamicOptions := some (some (.num 7)) } : FFConfig) with
              dynamicOptions := some r', defaultOptions := d },
            ({ defaultOptionsUsed := false, rest := [("method", JVal.str "GET")] } : FetchReq).defaultOptionsUsed,
            ({ defaultOptionsUsed := false, rest := [("method", JVal.str "GET")] } : FetchReq).files,
            ({ defaultOptionsUsed := false, rest := [("method", JVal.str "GET")] } : FetchReq).rest⟩
        = setFetchOptions { dynamicOptions := some (some (.num 7)) }
            ⟨({ defaultOptionsUsed := false, rest := [("method", JVal.str "GET")] } : FetchReq).data,
              ({ defaultOptionsUsed := false, rest := [("method", JVal.str "GET")] } : FetchReq).URLParams,
              dynOf { dynamicOptions := some (some (.num 7)) },
              ({ defaultOptionsUsed := false, rest := [("method", JVal.str "GET")] } : FetchReq).defaultOptionsUsed,
              ({ defaultOptionsUsed := false, rest := [("method", JVal.str "GET")] } : FetchReq).files,
              ({ defaultOptionsUsed := false, rest := [("method", JVal.str "GET")] } : FetchReq).rest⟩) :=
  ⟨rfl, rfl, useDefaults_false_provider_still_invoked _ _ _ _ _ rfl rfl⟩

theorem jlookup_clone (ss : List (String × JVal)) (hnd : (ss.map Prod.fst).Nodup)
    (k : String) :
    jlookup (entriesOf (deepMerge (.obj []) (.obj ss))) k = jlookup ss k := by
  rw [deepMerge_obj_obj]
  simp only [entriesOf]
  rw [jlookup_mergeEntries _ _ hnd]
  cases h : jlookup ss k with
  | none => simp [jlookup]
  | some v => simp [mergedValue, entriesOf, jlookup]

/-- C1 counterexample: with static default `cache: [1]`, no dynamic
result, and per-call `cache: [2]`, the merged options carry
`cache: [1, 2]` — deepmerge's default array rule concatenates the
target and source arrays — rather than the per-call array `[2]` that
wholesale replacement would give. -/
theorem merge_array_concatenated_counterexample :
    setFetchOptions
        ⟨"", "", none, false, false, false, none, [("cache", .arr [.num 1])], ""⟩
        ⟨[], [], none, true, false, [("cache", .arr [.num 2])]⟩
      = .ok ⟨[], .obj [("cache", .arr [.num 1, .num 2])], none⟩ ∧
    (JVal.arr [.num 1, .num 2] ≠ JVal.arr [.num 2]) := by
  constructor
  · simp [setFetchOptions, mergeStage, deepMerge, mergeEntries, entriesOf, jlookup,
      setKey, isMergeableJ, isFormURLEncodedOf, contentTypeOf, methodIs, methodOf,
      objectToQueryString]
  · simp

/-- C1 amended: a merge with useDefaults true is the deep merge of the
cloned static defaults with the dynamic result, deep-merged again with
the per-call options, where: static values survive on keys neither
higher-precedence source touches; a non-object (scalar) per-call value
wins wholesale over both; a non-object dynamic value wins over static on
keys per-call does not touch; arrays from two sources are concatenated
(target then source), not replaced; and nested plain objects are merged
recursively by the same rules. -/
theorem merge_precedence_amended (cfg : FFConfig) (dyns rest : List (String × JVal))
    (hnd_def : (cfg.defaultOptions.map Prod.fst).Nodup)
    (hnd_dyn : (dyns.map Prod.fst).Nodup)
    (hnd_rest : (rest.map Prod.fst).Nodup) :
    ∃ m, mergeStage cfg (some (.obj dyns)) true rest = .ok (.obj m) ∧
      (∀ k, k ∉ dyns.map Prod.fst → k ∉ rest.map Prod.fst →
        jlookup m k = jlookup cfg.defaultOptions k) ∧
      (∀ k v, jlookup rest k = some v → isMergeableJ v = false →
        jlookup m k = some v) ∧
      (∀ k v, jlookup dyns k = some v → isMergeableJ v = false →
        k ∉ rest.map Prod.fst → jlookup m k = some v) ∧
      (∀ k ta sa, jlookup cfg.defaultOptions k = some (.arr ta) →
        k ∉ dyns.map Prod.fst → jlookup rest k = some (.arr sa) →
        jlookup m k = some (.arr (ta ++ sa))) ∧
      (∀ k A B, jlookup cfg.defaultOptions k = some (.obj A) →
        k ∉ dyns.map Prod.fst → jlookup rest k = some (.obj B) →
        jlookup m k = some (deepMerge (.obj A) (.obj B))) := by
  have hd0 : deepMerge (.obj []) (.obj cfg.defaultOptions)
      = .obj (mergeEntries (.obj []) [] cfg.defaultOptions) := deepMerge_obj_obj _ _
  set e0 : List (String × JVal) := mergeEntries (.obj []) [] cfg.defaultOptions with he0def
  have he0 : ∀ k, jlookup e0 k = jlookup cfg.defaultOptions k := by
    intro k
    have := jlookup_clone cfg.defaultOptions hnd_def k
    rwa [deepMerge_obj_obj, entriesOf] at this
  set e1 : List (String × JVal) := mergeEntries (.obj e0) e0 dyns with he1def
  have hd1 : deepMerge (.obj e0) (.obj dyns) = .obj e1 := deepMerge_obj_obj _ _
  set m : List (String × JVal) := mergeEntries (.obj e1) e1 rest with hmdef
  have hd2 : deepMerge (.obj e1) (.obj rest) = .obj m := deepMerge_obj_obj _ _
  have hms : mergeStage cfg (some (.obj dyns)) true rest = .ok (.obj m) := by
    simp only [mergeStage, if_true]
    simp only [isPlainObject, if_true]
    rw [hd0, hd1, hd2]
  have hm1 : ∀ k, jlookup m k = jlookup (entriesOf (deepMerge (.obj e1) (.obj rest))) k := by
    intro k; rw [hd2]; rfl
  have hme1 : ∀ k, jlookup e1 k = jlookup (entriesOf (deepMerge (.obj e0) (.obj dyns))) k := by
    intro k; rw [hd1]; rfl
  refine ⟨m, hms, ?_, ?_, ?_, ?_, ?_⟩
  · intro k hkd hkr
    rw [hm1 k, jlookup_deepMerge_of_not_mem _ _ _ hnd_rest hkr]
    rw [hme1 k, jlookup_deepMerge_of_not_mem _ _ _ hnd_dyn hkd]
    exact he0 k
  · intro k v hv hvm
    rw [hm1 k]
    exact jlookup_deepMerge_source_not_mergeable _ _ _ _ hnd_rest hv hvm
  · intro k v hv hvm hkr
    rw [hm1 k, jlookup_deepMerge_of_not_mem _ _ _ hnd_rest hkr]
    rw [hme1 k]
    exact jlookup_deepMerge_source_not_mergeable _ _ _ _ hnd_dyn hv hvm
  · intro k ta sa hdk hkd hrk
    have h1 : jlookup e1 k = some (.arr ta) := by
      rw [hme1 k, jlookup_deepMerge_of_not_mem _ _ _ hnd_dyn hkd, he0 k]
      exact hdk
    rw [hm1 k,
      jlookup_deepMerge_both_mergeable _ _ _ _ _ hnd_rest h1 hrk (by simp [isMergeableJ])]
    simp [deepMerge]
  · intro k A B hdk hkd hrk
    have h1 : jlookup e1 k = some (.obj A) := by
      rw [hme1 k, jlookup_deepMerge_of_not_mem _ _ _ hnd_dyn hkd, he0 k]
      exact hdk
    rw [hm1 k,
      jlookup_deepMerge_both_mergeable _ _ _ _ _ hnd_rest h1 hrk (by simp [isMergeableJ])]

theorem merge_precedence_amended_witness :
    ((([("a", JVal.num 1), ("h", JVal.obj [("x", JVal.num 1)])] :
        List (String × JVal)).map Prod.fst).Nodup ∧
     (([("b", JVal.num 2)] : List (String × JVal)).map Prod.fst).Nodup ∧
     (([("c", JVal.num 3)] : List (String × JVal)).map Prod.fst).Nodup) ∧
    (∃ m, mergeStage
        { defaultOptions := [("a", JVal.num 1), ("h", JVal.obj [("x", JVal.num 1)])] }
        (some (.obj [("b", JVal.num 2)])) true [("c", JVal.num 3)] = .ok (.obj m) ∧
      (∀ k, k ∉ ([("b", JVal.num 2)] : List (String × JVal)).map Prod.fst →
        k ∉ ([("c", JVal.num 3)] : List (String × JVal)).map Prod.fst →
        jlookup m k = jlookup ({ defaultOptions := [("a", JVal.num 1),
          ("h", JVal.obj [("x", JVal.num 1)])] } : FFConfig).defaultOptions k) ∧
      (∀ k v, jlookup [("c", JVal.num 3)] k = some v → isMergeableJ v = false →
        jlookup m k = some v) ∧
      (∀ k v, jlookup [("b", JVal.num 2)] k = some v → isMergeableJ v = false →
        k ∉ ([("c", JVal.num 3)] : List (String × JVal)).map Prod.fst →
        jlookup m k = some v) ∧
      (∀ k ta sa, jlookup ({ defaultOptions := [("a", JVal.num 1),
          ("h", JVal.obj [("x", JVal.num 1)])] } : FFConfig).defaultOptions k
          = some (.arr ta) →
        k ∉ ([("b", JVal.num 2)] : List (String × JVal)).map Prod.fst →
        jlookup [("c", JVal.num 3)] k = some (.arr sa) →
        jlookup m k = some (.arr (ta ++ sa))) ∧
      (∀ k A B, jlookup ({ defaultOptions := [("a", JVal.num 1),
          ("h", JVal.obj [("x", JVal.num 1)])] } : FFConfig).defaultOptions k
          = some (.obj A) →
        k ∉ ([("b", JVal.num 2)] : List (String × JVal)).map Prod.fst →
        jlookup [("c", JVal.num 3)] k = some (.obj B) →
        jlookup m k = some (deepMerge (.obj A) (.obj B)))) :=
  ⟨⟨by decide, by decide, by decide⟩,
    merge_precedence_amended _ _ _ (by decide) (by decide) (by decide)⟩

theorem mergeStage_ok_obj (cfg : FFConfig) (dyn : Option JVal) (used : Bool)
    (rest : List (String × JVal)) (o : JVal)
    (h : mergeStage cfg dyn used rest = .ok o) : ∃ es, o = .obj es := by
  unfold mergeStage at h
  by_cases hu : used = true
  · subst hu
    simp only [if_true] at h
    cases hdyn : dyn with
    | none =>
      simp only [hdyn] at h
      rw [deepMerge_obj_obj] at h
      rw [deepMerge_obj_obj] at h
      cases h
      exact ⟨_, rfl⟩
    | some dv =>
      simp only [hdyn] at h
      by_cases hpl : isPlainObject dv = true
      · cases dv with
        | obj ds =>
          simp only [hpl, if_true] at h
          rw [deepMerge_obj_obj, deepMerge_obj_obj, deepMerge_obj_obj] at h
          cases h
          exact ⟨_, rfl⟩
        | null => simp [isPlainObject] at hpl
        | bool b => simp [isPlainObject] at hpl
        | num i => simp [isPlainObject] at hpl
        | str s => simp [isPlainObject] at hpl
        | arr xs => simp [isPlainObject] at hpl
      · simp [hpl] at h
  · simp only [if_neg hu] at h
    cases h
    exact ⟨_, rfl⟩

theorem methodIs_post_excludes_query_methods (o : JVal)
    (h : (methodIs o "POST" || methodIs o "PUT" || methodIs o "PATCH") = true) :
    methodIs o "GET" = false ∧ methodIs o "DELETE" = false ∧ methodIs o "HEAD" = false := by
  unfold methodIs at *
  cases hm : methodOf o with
  | none => simp [hm] at h
  | some v =>
    cases v with
    | str s =>
      simp only [hm] at h ⊢
      rcases Bool.or_eq_true_iff.mp h with h' | h'
      · rcases Bool.or_eq_true_iff.mp h' with h'' | h''
        · simp_all
        · simp_all
      · simp_all
    | null => simp [hm] at h
    | bool b => simp [hm] at h
    | num i => simp [hm] at h
    | arr xs => simp [hm] at h
    | obj es => simp [hm] at h

/-- C2: on a POST/PUT/PATCH request with no files, a non-empty data
mapping and no explicit form-urlencoded content type, setFetchOptions
returns the merged options with the Content-Type header leaf forced to
application/json, every other header leaf and every other top-level
option key preserved, and the body set to the JSON serialization of the
data mapping. -/
theorem post_json_body_forces_content_type (cfg : FFConfig) (a : SFOArgs) (o : JVal)
    (hmerge : mergeStage cfg a.dynamicOptions a.defaultOptionsUsed a.rest = .ok o)
    (hfiles : a.files = false)
    (hdata : a.data ≠ [])
    (hform : isFormURLEncodedOf o = false)
    (hmethod : (methodIs o "POST" || methodIs o "PUT" || methodIs o "PATCH") = true) :
    ∃ o', setFetchOptions cfg a
        = .ok ⟨objectToQueryString a.URLParams, o',
            some (.jsonStr (jsonStringify (.obj a.data)))⟩ ∧
      headerLookup o' "Content-Type" = some (.str "application/json") ∧
      (∀ k, k ≠ "Content-Type" → headerLookup o' k = headerLookup o k) ∧
      (∀ k, k ≠ "headers" → jlookup (entriesOf o') k = jlookup (entriesOf o) k) := by
  obtain ⟨hg, hd, hh⟩ := methodIs_post_excludes_query_methods o hmethod
  have hlen : 0 < a.data.length := List.length_pos.mpr hdata
  refine ⟨deepMerge o (.obj [("headers", .obj [("Content-Type", .str "application/json")])]),
    ?_, ?_⟩
  · unfold setFetchOptions
    rw [hmerge]
    simp [hfiles, hlen, hg, hd, hh, hform, hmethod]
  · -- header and top-level preservation
    obtain ⟨es, rfl⟩ := mergeStage_ok_obj cfg a.dynamicOptions a.defaultOptionsUsed a.rest o hmerge
    have hndct : ((([("Content-Type", JVal.str "application/json")] :
        List (String × JVal))).map Prod.fst).Nodup := by simp
    have hndh : ((([("headers", JVal.obj [("Content-Type", JVal.str "application/json")])] :
        List (String × JVal))).map Prod.fst).Nodup := by simp
    cases hhv : jlookup es "headers" with
    | none =>
      have hlk : jlookup (entriesOf (deepMerge (.obj es)
          (.obj [("headers", .obj [("Content-Type", .str "application/json")])]))) "headers"
          = some (.obj [("Content-Type", .str "application/json")]) :=
        jlookup_deepMerge_source_only _ _ _ _ hndh hhv (by simp [jlookup])
      refine ⟨?_, ?_, ?_⟩
      · simp only [headerLookup]
        rw [hlk]
        simp [jlookup]
      · intro k hk
        simp only [headerLookup]
        rw [hlk]
        simp [jlookup, hk, Ne.symm hk, entriesOf, hhv]
      · intro k hk
        rw [jlookup_deepMerge_of_not_mem _ _ _ hndh (by simp [hk])]
        rfl
    | some hv =>
      have hlk : jlookup (entriesOf (deepMerge (.obj es)
          (.obj [("headers", .obj [("Content-Type", .str "application/json")])]))) "headers"
          = some (deepMerge hv (.obj [("Content-Type", .str "application/json")])) :=
        jlookup_deepMerge_both_mergeable _ _ _ _ _ hndh hhv (by simp [jlookup])
          (by simp [isMergeableJ])
      have hmain : ∀ hs', deepMerge hv (.obj [("Content-Type", .str "application/json")])
            = .obj hs' →
          (jlookup hs' "Content-Type" = some (.str "application/json") ∧
           ∀ k, k ≠ "Content-Type" → jlookup hs' k
              = (match hv with | .obj hs => jlookup hs k | _ => none)) := by
        intro hs' hws
        cases hv with
        | obj hs =>
          rw [deepMerge_obj_obj] at hws
          cases hws
          constructor
          · rw [jlookup_mergeEntries _ _ hndct]
            simp [jlookup, mergedValue, isMergeableJ]
          · intro k hk
            rw [jlookup_mergeEntries _ _ hndct]
            have : jlookup [("Content-Type", JVal.str "application/json")] k = none := by
              simp [jlookup, Ne.symm hk]
            simp [this]
        | arr xs =>
          simp only [deepMerge] at hws
          cases hws
          constructor
          · simp [jlookup]
          · intro k hk; simp [jlookup, Ne.symm hk]
        | null =>
          simp only [deepMerge, mergeEntries, entriesOf, mergedValue, jlookup, setKey] at hws
          cases hws
          constructor
          · simp [jlookup]
          · intro k hk; simp [jlookup, Ne.symm hk]
        | bool b =>
          simp only [deepMerge, mergeEntries, entriesOf, mergedValue, jlookup, setKey] at hws
          cases hws
          constructor
          · simp [jlookup]
          · intro k hk; simp [jlookup, Ne.symm hk]
        | num i =>
          simp only [deepMerge, mergeEntries, entriesOf, mergedValue, jlookup, setKey] at hws
          cases hws
          constructor
          · simp [jlookup]
          · intro k hk; simp [jlookup, Ne.symm hk]
        | str s =>
          simp only [deepMerge, mergeEntries, entriesOf, mergedValue, jlookup, setKey] at hws
          cases hws
          constructor
          · simp [jlookup]
          · intro k hk; simp [jlookup, Ne.symm hk]
      have hshape : ∃ hs', deepMerge hv (.obj [("Content-Type", .str "application/json")])
          = .obj hs' := by
        cases hv with
        | obj hs => rw [deepMerge_obj_obj]; exact ⟨_, rfl⟩
        | arr xs =>
          exact ⟨[("Content-Type", .str "application/json")], by simp [deepMerge]⟩
        | null =>
          exact ⟨[("Content-Type", .str "application/json")],
            by simp [deepMerge, mergeEntries, entriesOf, mergedValue, jlookup, setKey]⟩
        | bool b =>
          exact ⟨[("Content-Type", .str "application/json")],
            by simp [deepMerge, mergeEntries, entriesOf, mergedValue, jlookup, setKey]⟩
        | num i =>
          exact ⟨[("Content-Type", .str "application/json")],
            by simp [deepMerge, mergeEntries, entriesOf, mergedValue, jlookup, setKey]⟩
        | str s =>
          exact ⟨[("Content-Type", .str "application/json")],
            by simp [deepMerge, mergeEntries, entriesOf, mergedValue, jlookup, setKey]⟩
      obtain ⟨hs', hws⟩ := hshape
      obtain ⟨hct, hrest⟩ := hmain hs' hws
      refine ⟨?_, ?_, ?_⟩
      · simp only [headerLookup]
        rw [hlk, hws]
        exact hct
      · intro k hk
        simp only [headerLookup]
        rw [hlk, hws]
        simp only []
        rw [hrest k hk]
        cases hv <;> simp [entriesOf, hhv]
      · intro k hk
        rw [jlookup_deepMerge_of_not_mem _ _ _ hndh (by simp [hk])]
        rfl

theorem post_json_body_forces_content_type_witness :
    (mergeStage { defaultOptions := [("headers", JVal.obj [("Authorization", JVal.str "Bearer k")])] }
        (SFOArgs.mk [("age", JVal.num 5)] [] none true false [("method", JVal.str "POST")]).dynamicOptions
        (SFOArgs.mk [("age", JVal.num 5)] [] none true false [("method", JVal.str "POST")]).defaultOptionsUsed
        (SFOArgs.mk [("age", JVal.num 5)] [] none true false [("method", JVal.str "POST")]).rest
      = .ok (.obj [("headers", JVal.obj [("Authorization", JVal.str "Bearer k")]),
          ("method", JVal.str "POST")]) ∧
     (SFOArgs.mk [("age", JVal.num 5)] [] none true false [("method", JVal.str "POST")]).files = false ∧
     (SFOArgs.mk [("age", JVal.num 5)] [] none true false [("method", JVal.str "POST")]).data ≠ [] ∧
     isFormURLEncodedOf (.obj [("headers", JVal.obj [("Authorization", JVal.str "Bearer k")]),
          ("method", JVal.str "POST")]) = false ∧
     (methodIs (.obj [("headers", JVal.obj [("Authorization", JVal.str "Bearer k")]),
          ("method", JVal.str "POST")]) "POST"
        || methodIs (.obj [("headers", JVal.obj [("Authorization", JVal.str "Bearer k")]),
          ("method", JVal.str "POST")]) "PUT"
        || methodIs (.obj [("headers", JVal.obj [("Authorization", JVal.str "Bearer k")]),
          ("method", JVal.str "POST")]) "PATCH") = true) ∧
    (∃ o', setFetchOptions
        { defaultOptions := [("headers", JVal.obj [("Authorization", JVal.str "Bearer k")])] }
        (SFOArgs.mk [("age", JVal.num 5)] [] none true false [("method", JVal.str "POST")])
        = .ok ⟨objectToQueryString
            (SFOArgs.mk [("age", JVal.num 5)] [] none true false [("method", JVal.str "POST")]).URLParams,
            o', some (.jsonStr (jsonStringify
              (.obj (SFOArgs.mk [("age", JVal.num 5)] [] none true false
                [("method", JVal.str "POST")]).data)))⟩ ∧
      headerLookup o' "Content-Type" = some (.str "application/json") ∧
      (∀ k, k ≠ "Content-Type" → headerLookup o' k
          = headerLookup (.obj [("headers", JVal.obj [("Authorization", JVal.str "Bearer k")]),
              ("method", JVal.str "POST")]) k) ∧
      (∀ k, k ≠ "headers" → jlookup (entriesOf o') k
          = jlookup (entriesOf (JVal.obj [("headers", JVal.obj [("Authorization", JVal.str "Bearer k")]),
              ("method", JVal.str "POST")])) k)) :=
  ⟨⟨by simp [mergeStage, deepMerge, mergeEntries, jlookup, setKey, entriesOf,
      isMergeableJ, mergedValue],
    rfl, by simp,
    by simp [isFormURLEncodedOf, contentTypeOf, entriesOf, jlookup],
    by simp [methodIs, methodOf, entriesOf, jlookup]⟩,
   post_json_body_forces_content_type _ _ _
    (by simp [mergeStage, deepMerge, mergeEntries, jlookup, setKey, entriesOf,
      isMergeableJ, mergedValue])
    rfl (by simp)
    (by simp [isFormURLEncodedOf, contentTypeOf, entriesOf, jlookup])
    (by simp [methodIs, methodOf, entriesOf, jlookup])⟩

/-- C3 counterexample: a GET call carrying both a non-empty data mapping
and a non-empty URLParams mapping, but also a files value, does not fail
at all: the files branch runs first, the transport is invoked, and the
call succeeds. -/
theorem data_urlparams_with_files_not_rejected :
    fetchModel ⟨"", "", none, false, false, false, none, [], ""⟩ "u"
        ⟨[("a", .num 1)], [("b", .num 2)], true, "", "", true, true, true,
          [("method", .str "GET")]⟩
        (fun _ _ => .resp ⟨200⟩)
      = ⟨.ok ⟨200⟩, [.transportInvoked ("u" ++ String.mk ['?', 'b', '=', '2'])]⟩ := by
  simp [fetchModel, setFetchOptions, mergeStage, deepMerge, mergeEntries, entriesOf,
    jlookup, setKey, mergedValue, isMergeableJ, isFormURLEncodedOf, contentTypeOf,
    methodIs, methodOf, objectToQueryString, serializePairs, serializePair,
    encodeComponent, encodeComponentChar, urlKeepChar, utf8Bytes, percentByte,
    hexDigitUpper, queryValueString, typeofIsObject, intDigits, natDigits, digitCh,
    buildFullURL, isAbsoluteURL, respOk, dynOf, deleteContentType]

/-- C3 amended: a GET/HEAD/DELETE call with both data and URLParams
non-empty and NO files value fails with the FarFetchError caller
configuration error, raised before the transport is invoked and without
invoking the configured error handler. -/
theorem data_urlparams_conflict_fails_before_transport (cfg : FFConfig) (url : String)
    (req : FetchReq) (transport : String → SFOResult → TransportOutcome) (o : JVal)
    (hfiles : req.files = false)
    (hdata : req.data ≠ []) (hurl : req.URLParams ≠ [])
    (hmerge : mergeStage cfg (dynOf cfg) req.defaultOptionsUsed req.rest = .ok o)
    (hmethod : (methodIs o "GET" || methodIs o "DELETE" || methodIs o "HEAD") = true) :
    (fetchModel cfg url req transport).result = .error (.farFetch dataURLParamsErrMsg) ∧
    isFarFetchErrInstance (.farFetch dataURLParamsErrMsg) = true ∧
    (∀ u, FetchEv.transportInvoked u ∉ (fetchModel cfg url req transport).trace) ∧
    (∀ m r, FetchEv.errorHandlerInvoked m r ∉ (fetchModel cfg url req transport).trace) := by
  have hsfo : setFetchOptions cfg
      ⟨req.data, req.URLParams, dynOf cfg, req.defaultOptionsUsed, req.files, req.rest⟩
      = .error (.farFetch dataURLParamsErrMsg) := by
    unfold setFetchOptions
    rw [hmerge]
    simp [hfiles, List.length_pos.mpr hdata, List.length_pos.mpr hurl, hmethod]
  have hfe : fetchModel cfg url req transport
      = ⟨.error (.farFetch dataURLParamsErrMsg),
          if cfg.dynamicOptions.isSome then [.dynamicOptionsInvoked] else []⟩ := by
    rw [fetchModel]
    rw [hsfo]
  rw [hfe]
  refine ⟨rfl, rfl, ?_, ?_⟩
  · intro u
    split <;> simp
  · intro m r
    split <;> simp

theorem data_urlparams_conflict_fails_before_transport_witness :
    (conflictReq.files = false ∧
     conflictReq.data ≠ [] ∧
     conflictReq.URLParams ≠ [] ∧
     mergeStage ({} : FFConfig) (dynOf ({} : FFConfig))
        conflictReq.defaultOptionsUsed conflictReq.rest
        = .ok (.obj [("method", JVal.str "GET")]) ∧
     (methodIs (.obj [("method", JVal.str "GET")]) "GET"
        || methodIs (.obj [("method", JVal.str "GET")]) "DELETE"
        || methodIs (.obj [("method", JVal.str "GET")]) "HEAD") = true) ∧
    ((fetchModel ({} : FFConfig) "u" conflictReq
        (fun _ _ => .resp ⟨200⟩)).result = .error (.farFetch dataURLParamsErrMsg) ∧
     isFarFetchErrInstance (.farFetch dataURLParamsErrMsg) = true ∧
     (∀ u, FetchEv.transportInvoked u ∉ (fetchModel ({} : FFConfig) "u" conflictReq
        (fun _ _ => .resp ⟨200⟩)).trace) ∧
     (∀ m r, FetchEv.errorHandlerInvoked m r ∉ (fetchModel ({} : FFConfig) "u" conflictReq
        (fun _ _ => .resp ⟨200⟩)).trace)) :=
  ⟨⟨rfl, by simp [conflictReq], by simp [conflictReq],
    by simp [conflictReq, mergeStage, dynOf, deepMerge, mergeEntries, entriesOf, jlookup,
      setKey, mergedValue, isMergeableJ],
    by simp [methodIs, methodOf, entriesOf, jlookup]⟩,
   data_urlparams_conflict_fails_before_transport ({} : FFConfig) "u" conflictReq
    (fun _ _ => .resp ⟨200⟩) (.obj [("method", JVal.str "GET")])
    rfl (by simp [conflictReq]) (by simp [conflictReq])
    (by simp [conflictReq, mergeStage, dynOf, deepMerge, mergeEntries, entriesOf, jlookup,
      setKey, mergedValue, isMergeableJ])
    (by simp [methodIs, methodOf, entriesOf, jlookup])⟩

/-- C4 counterexample: when the transport itself throws (a network-level
TypeError, not a FarFetchError), the error reaching the caller is the
transport's own exception, propagated unchanged — not the tagged
FarFetchError carrying `{ error, response }` the claim requires for
every transport-level exception. -/
theorem transport_exception_not_wrapped :
    (fetchModel ({} : FFConfig) "u" { rest := [("method", JVal.str "GET")] }
        (fun _ _ => .exn "TypeError: Failed to fetch")).result
      = .error (.transport "TypeError: Failed to fetch") ∧
    isFarFetchErrInstance (.transport "TypeError: Failed to fetch") = false := by
  constructor
  · simp [fetchModel, setFetchOptions, mergeStage, deepMerge, mergeEntries, entriesOf,
      jlookup, setKey, mergedValue, isMergeableJ, isFormURLEncodedOf, contentTypeOf,
      methodIs, methodOf, objectToQueryString, buildFullURL, isAbsoluteURL, dynOf,
      handleCatch, isFarFetchErrInstance]
  · rfl

/-- C4 amended: once the pipeline reaches the transport, a response with
status outside 200–299 is re-raised as the tagged FarFetchError carrying
`{ error, response }` with the response; every exception thrown by the
transport itself — which is never a FarFetchError instance — and every
other non-FarFetchError exception is propagated to the caller
unchanged. -/
theorem request_failure_wrapping (cfg : FFConfig) (url : String) (req : FetchReq)
    (transport : String → SFOResult → TransportOutcome) (sfo : SFOResult)
    (hsfo : setFetchOptions cfg
        ⟨req.data, req.URLParams, dynOf cfg, req.defaultOptionsUsed, req.files, req.rest⟩
      = .ok sfo) :
    (∀ r, transport (buildFullURL cfg url sfo.queryString) sfo = .resp r →
      respOk r = false →
      (fetchModel cfg url req transport).result
        = .error (.farFetchWrapped (.farFetch "Server error.") (some r))) ∧
    (∀ msg, transport (buildFullURL cfg url sfo.queryString) sfo = .exn msg →
      (fetchModel cfg url req transport).result = .error (.transport msg)) := by
  constructor
  · intro r htr hok
    rw [fetchModel, hsfo]
    simp only [htr, hok, Bool.false_eq_true, if_false, handleCatch_result]
    rfl
  · intro msg htr
    rw [fetchModel, hsfo]
    simp only [htr, handleCatch_result]
    rfl

theorem request_failure_wrapping_witness :
    (setFetchOptions ({} : FFConfig)
        ⟨({ rest := [("method", JVal.str "GET")] } : FetchReq).data,
          ({ rest := [("method", JVal.str "GET")] } : FetchReq).URLParams,
          dynOf ({} : FFConfig),
          ({ rest := [("method", JVal.str "GET")] } : FetchReq).defaultOptionsUsed,
          ({ rest := [("method", JVal.str "GET")] } : FetchReq).files,
          ({ rest := [("method", JVal.str "GET")] } : FetchReq).rest⟩
      = .ok ⟨[], .obj [("method", JVal.str "GET")], none⟩) ∧
    ((∀ r, status500Transport
        (buildFullURL ({} : FFConfig) "u"
          (SFOResult.mk [] (.obj [("method", JVal.str "GET")]) none).queryString)
        ⟨[], .obj [("method", JVal.str "GET")], none⟩ = .resp r →
      respOk r = false →
      (fetchModel ({} : FFConfig) "u" { rest := [("method", JVal.str "GET")] }
          status500Transport).result
        = .error (.farFetchWrapped (.farFetch "Server error.") (some r))) ∧
    (∀ msg, status500Transport
        (buildFullURL ({} : FFConfig) "u"
          (SFOResult.mk [] (.obj [("method", JVal.str "GET")]) none).queryString)
        ⟨[], .obj [("method", JVal.str "GET")], none⟩ = .exn msg →
      (fetchModel ({} : FFConfig) "u" { rest := [("method", JVal.str "GET")] }
          status500Transport).result = .error (.transport msg))) :=
  ⟨by simp [setFetchOptions, mergeStage, dynOf, deepMerge, mergeEntries, entriesOf,
      jlookup, setKey, mergedValue, isMergeableJ, isFormURLEncodedOf, contentTypeOf,
      methodIs, methodOf, objectToQueryString],
   request_failure_wrapping ({} : FFConfig) "u" { rest := [("method", JVal.str "GET")] }
    status500Transport ⟨[], .obj [("method", JVal.str "GET")], none⟩
    (by simp [setFetchOptions, mergeStage, dynOf, deepMerge, mergeEntries, entriesOf,
      jlookup, setKey, mergedValue, isMergeableJ, isFormURLEncodedOf, contentTypeOf,
      methodIs, methodOf, objectToQueryString])⟩

theorem userMessage_eq_claim (cfg : FFConfig) (method : Option JVal)
    (em noun verb : String) (h : claimDefaultVerb method = some verb) :
    userMessage cfg method em noun
      = (if em ≠ "" then em
         else match cfg.errorMsgTemplate with
           | some f => f method noun
           | none => "Error " ++ verb ++ " " ++ noun) := by
  by_cases hem : em = ""
  · subst hem
    simp only [ne_eq, not_true_eq_false, if_false, userMessage, ite_false]
    cases htpl : cfg.errorMsgTemplate with
    | some f => rfl
    | none =>
      unfold claimDefaultVerb at h
      split at h <;>
        first
        | (injection h with h; subst h; simp [methodValIs])
        | exact absurd h (by simp)
  · simp [userMessage, hem]

/-- C5: a call receiving a 400/500-range response rejects with the
tagged error carrying the response whose status equals the server
status; and when an errorMsg or errorMsgNoun was supplied and a global
error handler is configured, the handler is invoked exactly once, with a
userMessage equal to the explicit errorMsg when given, else the custom
template function's result when configured, else
`Error <verb> <noun>` under the default verb mapping. -/
theorem error_status_invokes_handler_once (cfg : FFConfig) (url : String)
    (req : FetchReq) (transport : String → SFOResult → TransportOutcome)
    (sfo : SFOResult) (r : Resp)
    (hsfo : setFetchOptions cfg
        ⟨req.data, req.URLParams, dynOf cfg, req.defaultOptionsUsed, req.files, req.rest⟩
      = .ok sfo)
    (htr : transport (buildFullURL cfg url sfo.queryString) sfo = .resp r)
    (hst : 400 ≤ r.status ∧ r.status ≤ 599) :
    (fetchModel cfg url req transport).result
      = .error (.farFetchWrapped (.farFetch "Server error.") (some r)) ∧
    (∀ verb, claimDefaultVerb (methodOf sfo.init) = some verb →
      cfg.hasErrorHandler = true → (req.errorMsg ≠ "" ∨ req.errorMsgNoun ≠ "") →
      (fetchModel cfg url req transport).trace.filter isHandlerEv
        = [.errorHandlerInvoked
            (if req.errorMsg ≠ "" then req.errorMsg
             else match cfg.errorMsgTemplate with
               | some f => f (methodOf sfo.init) req.errorMsgNoun
               | none => "Error " ++ verb ++ " " ++ req.errorMsgNoun)
            (some r)]) := by
  have hok : respOk r = false := by
    simp only [respOk, Bool.and_eq_false_iff]
    right
    simp only [decide_eq_false_iff_not]
    omega
  constructor
  · rw [fetchModel, hsfo]
    simp only [htr, hok, Bool.false_eq_true, if_false, handleCatch_result]
    rfl
  · intro verb hverb hh hmsg
    rw [fetchModel, hsfo]
    simp only [htr, hok, Bool.false_eq_true, if_false, handleCatch_trace]
    have hcond : cfg.hasErrorHandler = true ∧ (req.errorMsg ≠ "" ∨ req.errorMsgNoun ≠ "") :=
      ⟨hh, hmsg⟩
    rw [if_pos hcond]
    rw [userMessage_eq_claim cfg (methodOf sfo.init) req.errorMsg req.errorMsgNoun verb hverb]
    by_cases hdy : cfg.dynamicOptions.isSome <;>
      by_cases hbs : (req.globalBeforeSend && cfg.hasBeforeSend) = true <;>
        simp [hdy, hbs, isHandlerEv]

theorem error_status_invokes_handler_once_witness :
    (setFetchOptions handlerCfg
        ⟨nounReq.data, nounReq.URLParams, dynOf handlerCfg, nounReq.defaultOptionsUsed,
          nounReq.files, nounReq.rest⟩
      = .ok ⟨[], .obj [("method", JVal.str "POST")], none⟩ ∧
     status400Transport
        (buildFullURL handlerCfg "u"
          (SFOResult.mk [] (.obj [("method", JVal.str "POST")]) none).queryString)
        ⟨[], .obj [("method", JVal.str "POST")], none⟩ = .resp ⟨400⟩ ∧
     400 ≤ (Resp.mk 400).status ∧ (Resp.mk 400).status ≤ 599) ∧
    ((fetchModel handlerCfg "u" nounReq status400Transport).result
      = .error (.farFetchWrapped (.farFetch "Server error.") (some ⟨400⟩)) ∧
    (∀ verb, claimDefaultVerb (methodOf (SFOResult.mk []
          (.obj [("method", JVal.str "POST")]) none).init) = some verb →
      handlerCfg.hasErrorHandler = true →
      (nounReq.errorMsg ≠ "" ∨ nounReq.errorMsgNoun ≠ "") →
      (fetchModel handlerCfg "u" nounReq status400Transport).trace.filter isHandlerEv
        = [.errorHandlerInvoked
            (if nounReq.errorMsg ≠ "" then nounReq.errorMsg
             else match handlerCfg.errorMsgTemplate with
               | some f => f (methodOf (SFOResult.mk []
                   (.obj [("method", JVal.str "POST")]) none).init) nounReq.errorMsgNoun
               | none => "Error " ++ verb ++ " " ++ nounReq.errorMsgNoun)
            (some ⟨400⟩)])) :=
  ⟨⟨by simp [setFetchOptions, mergeStage, dynOf, handlerCfg, nounReq, deepMerge,
      mergeEntries, entriesOf, jlookup, setKey, mergedValue, isMergeableJ,
      isFormURLEncodedOf, contentTypeOf, methodIs, methodOf, objectToQueryString],
    rfl, by simp, by simp⟩,
   error_status_invokes_handler_once handlerCfg "u" nounReq status400Transport
    ⟨[], .obj [("method", JVal.str "POST")], none⟩ ⟨400⟩
    (by simp [setFetchOptions, mergeStage, dynOf, handlerCfg, nounReq, deepMerge,
      mergeEntries, entriesOf, jlookup, setKey, mergedValue, isMergeableJ,
      isFormURLEncodedOf, contentTypeOf, methodIs, methodOf, objectToQueryString])
    rfl (by simp)⟩

theorem digitCh_isDigit (n : Nat) (h : n < 10) : isDigitCh (digitCh n) = true := by
  interval_cases n <;> decide

theorem digitVal_digitCh (n : Nat) (h : n < 10) : digitVal (digitCh n) = n := by
  interval_cases n <;> decide

theorem natDigits_all_digits (n : Nat) : ∀ c ∈ natDigits n, isDigitCh c = true := by
  induction n using Nat.strong_induction_on with
  | _ n ih =>
    intro c hc
    unfold natDigits at hc
    by_cases h : n < 10
    · simp only [h, dif_pos] at hc
      simp only [List.mem_singleton] at hc
      subst hc
      exact digitCh_isDigit n h
    · simp only [h, dif_neg, not_false_iff, List.mem_append] at hc
      rcases hc with hc | hc
      · exact ih (n / 10) (by omega) c hc
      · simp only [List.mem_singleton] at hc
        subst hc
        exact digitCh_isDigit (n % 10) (by omega)

theorem natDigits_ne_nil (n : Nat) : natDigits n ≠ [] := by
  unfold natDigits
  by_cases h : n < 10 <;> simp [h]

theorem takeDigits_append (ds rest : List Char)
    (hds : ∀ c ∈ ds, isDigitCh c = true) (hrest : noDigitHead rest = true) :
    takeDigits (ds ++ rest) = (ds, rest) := by
  induction ds with
  | nil =>
    simp only [List.nil_append]
    cases rest with
    | nil => rfl
    | cons c cs =>
      simp only [noDigitHead, Bool.not_eq_true'] at hrest
      simp [takeDigits, hrest]
  | cons c cs ih =>
    have hc : isDigitCh c = true := hds c (by simp)
    have ih' := ih (fun c' hc' => hds c' (by simp [hc']))
    simp [takeDigits, hc, ih']

theorem natFromDigits_aux (ds : List Char) (a : Nat) :
    List.foldl (fun a c => a * 10 + digitVal c) a ds
      = a * 10 ^ ds.length + natFromDigits ds := by
  induction ds generalizing a with
  | nil => simp [natFromDigits]
  | cons c cs ih =>
    simp only [List.foldl_cons, natFromDigits]
    rw [ih, ih (0 * 10 + digitVal c)]
    simp [List.length_cons, pow_succ]
    ring

theorem natFromDigits_natDigits (n : Nat) : natFromDigits (natDigits n) = n := by
  induction n using Nat.strong_induction_on with
  | _ n ih =>
    unfold natDigits
    by_cases h : n < 10
    · simp [h, natFromDigits, digitVal_digitCh n h]
    · simp only [h, dif_neg, not_false_iff]
      simp only [natFromDigits, List.foldl_append, List.foldl_cons, List.foldl_nil]
      have h1 : List.foldl (fun a c => a * 10 + digitVal c) 0 (natDigits (n / 10))
          = n / 10 := ih (n / 10) (by omega)
      rw [h1, digitVal_digitCh (n % 10) (by omega)]
      omega

theorem psb_quote (cs : List Char) : parseStringBody ('"' :: cs) = some ([], cs) := by
  rw [parseStringBody.eq_def]
  simp

theorem psb_default (c : Char) (cs : List Char) (hq : c ≠ '"') (hb : c ≠ '\\') :
    parseStringBody (c :: cs) = (parseStringBody cs).map (fun r => (c :: r.1, r.2)) := by
  rw [parseStringBody.eq_def]
  simp [hq, hb]

theorem psb_escape (e : Char) (d : Char) (cs : List Char)
    (hu : e ≠ 'u') (he : escCharFor e = some d) :
    parseStringBody ('\\' :: e :: cs)
      = (parseStringBody cs).map (fun r => (d :: r.1, r.2)) := by
  rw [parseStringBody.eq_def]
  simp [hu, he]

theorem psb_unicode (h1 h2 h3 h4 : Char) (n : Nat) (cs : List Char)
    (hx : hex4 h1 h2 h3 h4 = some n) :
    parseStringBody ('\\' :: 'u' :: h1 :: h2 :: h3 :: h4 :: cs)
      = (parseStringBody cs).map (fun r => (Char.ofNat n :: r.1, r.2)) := by
  rw [parseStringBody.eq_def]
  simp [hx]

theorem hexVal_hexDigitLower (n : Nat) (h : n < 16) :
    hexVal? (hexDigitLower n) = some n := by
  interval_cases n <;> decide

theorem char_toNat_lt (c : Char) : c.toNat < 1114112 := by
  have h := c.valid
  rcases h with h | h
  · have : c.val.toNat < 55296 := h
    simp only [Char.toNat]
    omega
  · exact h.2

theorem parseStringBody_escString (s : List Char) : ∀ rest,
    parseStringBody (escString s ++ '"' :: rest) = some (s, rest) := by
  induction s with
  | nil => intro rest; simp [escString, psb_quote]
  | cons c cs ih =>
    intro rest
    have hesc : escString (c :: cs) = escapeChar c ++ escString cs := rfl
    rw [hesc, List.append_assoc]
    by_cases h1 : c = '"'
    · subst h1
      have : escapeChar '"' = ['\\', '"'] := by decide
      rw [this]
      simp only [List.cons_append, List.nil_append]
      rw [psb_escape '"' '"' _ (by decide) (by decide), ih rest]
      rfl
    by_cases h2 : c = '\\'
    · subst h2
      have : escapeChar '\\' = ['\\', '\\'] := by decide
      rw [this]
      simp only [List.cons_append, List.nil_append]
      rw [psb_escape '\\' '\\' _ (by decide) (by decide), ih rest]
      rfl
    by_cases h3 : c = '\x08'
    · subst h3
      have : escapeChar '\x08' = ['\\', 'b'] := by decide
      rw [this]
      simp only [List.cons_append, List.nil_append]
      rw [psb_escape 'b' '\x08' _ (by decide) (by decide), ih rest]
      rfl
    by_cases h4 : c = '\x09'
    · subst h4
      have : escapeChar '\x09' = ['\\', 't'] := by decide
      rw [this]
      simp only [List.cons_append, List.nil_append]
      rw [psb_escape 't' '\x09' _ (by decide) (by decide), ih rest]
      rfl
    by_cases h5 : c = '\x0a'
    · subst h5
      have : escapeChar '\x0a' = ['\\', 'n'] := by decide
      rw [this]
      simp only [List.cons_append, List.nil_append]
      rw [psb_escape 'n' '\x0a' _ (by decide) (by decide), ih rest]
      rfl
    by_cases h6 : c = '\x0c'
    · subst h6
      have : escapeChar '\x0c' = ['\\', 'f'] := by decide
      rw [this]
      simp only [List.cons_append, List.nil_append]
      rw [psb_escape 'f' '\x0c' _ (by decide) (by decide), ih rest]
      rfl
    by_cases h7 : c = '\x0d'
    · subst h7
      have : escapeChar '\x0d' = ['\\', 'r'] := by decide
      rw [this]
      simp only [List.cons_append, List.nil_append]
      rw [psb_escape 'r' '\x0d' _ (by decide) (by decide), ih rest]
      rfl
    by_cases h8 : c.toNat < 32
    · have hhex : escapeChar c
          = ['\\', 'u', '0', '0', hexDigitLower (c.toNat / 16), hexDigitLower (c.toNat % 16)] := by
        simp [escapeChar, h1, h2, h3, h4, h5, h6, h7, h8]
      rw [hhex]
      simp only [List.cons_append, List.nil_append]
      have hx : hex4 '0' '0' (hexDigitLower (c.toNat / 16)) (hexDigitLower (c.toNat % 16))
          = some c.toNat := by
        unfold hex4
        have hv : hexVal? '0' = some 0 := by decide
        rw [hv, hexVal_hexDigitLower (c.toNat / 16) (by omega),
          hexVal_hexDigitLower (c.toNat % 16) (by omega)]
        simp only []
        congr 1
        omega
      rw [psb_unicode _ _ _ _ _ _ hx, ih rest, Char.ofNat_toNat]
      rfl
    · have hesc2 : escapeChar c = [c] := by
        simp [escapeChar, h1, h2, h3, h4, h5, h6, h7, h8]
      rw [hesc2]
      simp only [List.cons_append, List.nil_append]
      rw [psb_default c _ h1 h2, ih rest]
      rfl

theorem stringMk_toList (s : String) : String.mk s.toList = s := by
  cases s; rfl

theorem Nval_pos (v : JVal) : 1 ≤ Nval v := by
  unfold Nval; split <;> omega

theorem pv_str (f : Nat) (cs : List Char) :
    parseVal (f + 1) ('"' :: cs)
      = (parseStringBody cs).map (fun r => (.str (String.mk r.1), r.2)) := by
  rw [parseVal.eq_def]; simp

theorem pv_null (f : Nat) (rest : List Char) :
    parseVal (f + 1) ('n' :: 'u' :: 'l' :: 'l' :: rest) = some (.null, rest) := by
  have h : isDigitCh 'n' = false := by decide
  rw [parseVal.eq_def]; simp [lPre, h]

theorem pv_true (f : Nat) (rest : List Char) :
    parseVal (f + 1) ('t' :: 'r' :: 'u' :: 'e' :: rest) = some (.bool true, rest) := by
  have h : isDigitCh 't' = false := by decide
  rw [parseVal.eq_def]; simp [lPre, h]

theorem pv_false (f : Nat) (rest : List Char) :
    parseVal (f + 1) ('f' :: 'a' :: 'l' :: 's' :: 'e' :: rest) = some (.bool false, rest) := by
  have h : isDigitCh 'f' = false := by decide
  rw [parseVal.eq_def]; simp [lPre, h]

theorem pv_neg (f : Nat) (cs : List Char) :
    parseVal (f + 1) ('-' :: cs)
      = (if (takeDigits cs).1 = [] then none
         else some (.num (-(natFromDigits (takeDigits cs).1 : Int)), (takeDigits cs).2)) := by
  rw [parseVal.eq_def]; simp

theorem digit_ne_special (c : Char) (hc : isDigitCh c = true) :
    c ≠ '"' ∧ c ≠ '[' ∧ c ≠ '\x7b' ∧ c ≠ '-' := by
  simp only [isDigitCh, Bool.and_eq_true, decide_eq_true_eq] at hc
  refine ⟨?_, ?_, ?_, ?_⟩ <;>
    (intro h; subst h; revert hc; decide)

theorem pv_digit (f : Nat) (c : Char) (cs : List Char) (hc : isDigitCh c = true) :
    parseVal (f + 1) (c :: cs)
      = some (.num (natFromDigits (takeDigits (c :: cs)).1), (takeDigits (c :: cs)).2) := by
  obtain ⟨h1, h2, h3, h4⟩ := digit_ne_special c hc
  rw [parseVal.eq_def]
  simp [h1, h2, h3, h4, hc]

theorem pv_arr_nil (f : Nat) (rest : List Char) :
    parseVal (f + 1) ('[' :: ']' :: rest) = some (.arr [], rest) := by
  rw [parseVal.eq_def]; simp

theorem pv_arr (f : Nat) (d : Char) (cs : List Char) (hd : d ≠ ']') :
    parseVal (f + 1) ('[' :: d :: cs)
      = (parseElems f (d :: cs)).map (fun r => (.arr r.1, r.2)) := by
  rw [parseVal.eq_def]; simp [hd]

theorem pv_obj_nil (f : Nat) (rest : List Char) :
    parseVal (f + 1) ('\x7b' :: '\x7d' :: rest) = some (.obj [], rest) := by
  rw [parseVal.eq_def]; simp

theorem pv_obj (f : Nat) (d : Char) (cs : List Char) (hd : d ≠ '\x7d') :
    parseVal (f + 1) ('\x7b' :: d :: cs)
      = (parseFields f (d :: cs)).map (fun r => (.obj r.1, r.2)) := by
  rw [parseVal.eq_def]; simp [hd]

theorem pe_succ (f : Nat) (cs : List Char) :
    parseElems (f + 1) cs
      = (match parseVal f cs with
         | none => none
         | some (v, rest) =>
           match rest with
           | [] => none
           | d :: rest' =>
             if d = ',' then (parseElems f rest').map (fun r => (v :: r.1, r.2))
             else if d = ']' then some ([v], rest')
             else none) := by
  rw [parseElems.eq_def]

theorem pf_succ (f : Nat) (cs : List Char) :
    parseFields (f + 1) cs
      = (match cs with
         | [] => none
         | c :: cs' =>
           if c = '"' then
             match parseStringBody cs' with
             | none => none
             | some (kc, rest) =>
               match rest with
               | [] => none
               | d :: rest' =>
                 if d = ':' then
                   match parseVal f rest' with
                   | none => none
                   | some (v, rest2) =>
                     match rest2 with
                     | [] => none
                     | e :: rest3 =>
                       if e = ',' then
                         (parseFields f rest3).map (fun r => ((String.mk kc, v) :: r.1, r.2))
                       else if e = '\x7d' then some ([(String.mk kc, v)], rest3)
                       else none
                 else none
           else none) := by
  rw [parseFields.eq_def]

theorem jsonStringify_head (v : JVal) :
    ∃ c cs, jsonStringify v = c :: cs ∧ c ≠ ']' := by
  cases v with
  | null => exact ⟨'n', ['u', 'l', 'l'], by simp [jsonStringify], by decide⟩
  | bool b =>
    cases b with
    | true => exact ⟨'t', ['r', 'u', 'e'], by simp [jsonStringify], by decide⟩
    | false => exact ⟨'f', ['a', 'l', 's', 'e'], by simp [jsonStringify], by decide⟩
  | num i =>
    by_cases hi : i < 0
    · exact ⟨'-', natDigits i.natAbs, by simp [jsonStringify, intDigits, hi], by decide⟩
    · have hstr : jsonStringify (.num i) = natDigits i.natAbs := by
        simp [jsonStringify, intDigits, hi]
      cases hnd : natDigits i.natAbs with
      | nil => exact absurd hnd (natDigits_ne_nil _)
      | cons c cs =>
        refine ⟨c, cs, by rw [hstr, hnd], ?_⟩
        have hdig : isDigitCh c = true :=
          natDigits_all_digits i.natAbs c (by rw [hnd]; simp)
        simp only [isDigitCh, Bool.and_eq_true, decide_eq_true_eq] at hdig
        intro h
        subst h
        revert hdig
        decide
  | str s =>
    exact ⟨'"', escString s.toList ++ ['"'], by simp [jsonStringify], by decide⟩
  | arr xs =>
    exact ⟨'[', jsonStringifyElems xs ++ [']'], by simp [jsonStringify], by decide⟩
  | obj es =>
    exact ⟨'\x7b', jsonStringifyFields es ++ ['\x7d'], by simp [jsonStringify], by decide⟩

theorem noDigitHead_cons (c : Char) (cs : List Char) :
    noDigitHead (c :: cs) = !isDigitCh c := rfl

theorem parseElems_stringify (xs : List JVal)
    (hih : ∀ v ∈ xs, ∀ rest fuel, Nval v ≤ fuel → noDigitHead rest = true →
      parseVal fuel (jsonStringify v ++ rest) = some (v, rest)) :
    xs ≠ [] → ∀ rest fuel, Nelems xs ≤ fuel →
      parseElems fuel (jsonStringifyElems xs ++ ']' :: rest) = some (xs, rest) := by
  induction xs with
  | nil => intro h; exact absurd rfl h
  | cons v vs ih =>
    intro _ rest fuel hfuel
    have hNe : Nelems (v :: vs) = 1 + Nval v + Nelems vs := by simp [Nelems]
    obtain ⟨f, rfl⟩ : ∃ f, fuel = f + 1 := ⟨fuel - 1, by omega⟩
    cases vs with
    | nil =>
      have he : jsonStringifyElems [v] = jsonStringify v := by simp [jsonStringifyElems]
      rw [he, pe_succ]
      rw [hih v (by simp) (']' :: rest) f (by simp [Nelems] at hfuel; omega)
        (by rw [noDigitHead_cons]; decide)]
      simp
    | cons w ws =>
      have he : jsonStringifyElems (v :: w :: ws)
          = jsonStringify v ++ ',' :: jsonStringifyElems (w :: ws) := by
        simp [jsonStringifyElems]
      rw [he]
      simp only [List.append_assoc, List.cons_append]
      rw [pe_succ]
      rw [hih v (by simp) (',' :: (jsonStringifyElems (w :: ws) ++ ']' :: rest)) f
        (by simp [Nelems] at hfuel; omega) (by rw [noDigitHead_cons]; decide)]
      have hih' : ∀ u ∈ w :: ws, ∀ rest fuel, Nval u ≤ fuel → noDigitHead rest = true →
          parseVal fuel (jsonStringify u ++ rest) = some (u, rest) :=
        fun u hu => hih u (by simp [hu])
      simp only [if_true]
      rw [ih hih' (by simp) rest f (by simp [Nelems] at hfuel ⊢; omega)]
      rfl

theorem parseFields_stringify (es : List (String × JVal))
    (hih : ∀ p ∈ es, ∀ rest fuel, Nval p.2 ≤ fuel → noDigitHead rest = true →
      parseVal fuel (jsonStringify p.2 ++ rest) = some (p.2, rest)) :
    es ≠ [] → ∀ rest fuel, Nfields es ≤ fuel →
      parseFields fuel (jsonStringifyFields es ++ '\x7d' :: rest) = some (es, rest) := by
  induction es with
  | nil => intro h; exact absurd rfl h
  | cons p ps ih =>
    obtain ⟨k, v⟩ := p
    intro _ rest fuel hfuel
    have hNf : Nfields ((k, v) :: ps) = 1 + Nval v + Nfields ps := by simp [Nfields]
    obtain ⟨f, rfl⟩ : ∃ f, fuel = f + 1 := ⟨fuel - 1, by omega⟩
    have hfield : jsonStringifyField k v
        = '"' :: (escString k.toList ++ '"' :: ':' :: jsonStringify v) := by
      simp [jsonStringifyField]
    cases ps with
    | nil =>
      have he : jsonStringifyFields [(k, v)] = jsonStringifyField k v := by
        simp [jsonStringifyFields]
      rw [he, hfield]
      simp only [List.append_assoc, List.cons_append]
      rw [pf_succ]
      simp only [if_true]
      rw [parseStringBody_escString k.toList (':' :: (jsonStringify v ++ '\x7d' :: rest))]
      simp only [if_true]
      rw [hih (k, v) (by simp) ('\x7d' :: rest) f (by show Nval v ≤ f; omega)
        (by rw [noDigitHead_cons]; decide)]
      simp [stringMk_toList]
    | cons q qs =>
      have he : jsonStringifyFields ((k, v) :: q :: qs)
          = jsonStringifyField k v ++ ',' :: jsonStringifyFields (q :: qs) := by
        simp [jsonStringifyFields]
      rw [he, hfield]
      simp only [List.append_assoc, List.cons_append]
      rw [pf_succ]
      simp only [if_true]
      rw [parseStringBody_escString k.toList
        (':' :: (jsonStringify v ++ ',' :: (jsonStringifyFields (q :: qs) ++ '\x7d' :: rest)))]
      simp only [if_true]
      rw [hih (k, v) (by simp)
        (',' :: (jsonStringifyFields (q :: qs) ++ '\x7d' :: rest)) f
        (by show Nval v ≤ f; omega)
        (by rw [noDigitHead_cons]; decide)]
      simp only [if_true]
      have hih' : ∀ p ∈ q :: qs, ∀ rest fuel, Nval p.2 ≤ fuel → noDigitHead rest = true →
          parseVal fuel (jsonStringify p.2 ++ rest) = some (p.2, rest) :=
        fun p hp => hih p (by simp [hp])
      rw [ih hih' (by simp) rest f (by simp [Nfields] at hfuel ⊢; omega)]
      simp [stringMk_toList]

theorem Nval_arr_cons (x : JVal) (xs : List JVal) :
    Nval (.arr (x :: xs)) = 1 + Nelems (x :: xs) := by
  rw [Nval]

theorem Nval_obj_cons (p : String × JVal) (ps : List (String × JVal)) :
    Nval (.obj (p :: ps)) = 1 + Nfields (p :: ps) := by
  rw [Nval]

theorem jsonStringifyElems_cons_decomp (x : JVal) (xs : List JVal) :
    ∃ T, jsonStringifyElems (x :: xs) = jsonStringify x ++ T := by
  cases xs with
  | nil => exact ⟨[], by simp [jsonStringifyElems]⟩
  | cons y ys => exact ⟨',' :: jsonStringifyElems (y :: ys), by simp [jsonStringifyElems]⟩

theorem jsonStringifyFields_cons_head (p : String × JVal) (ps : List (String × JVal)) :
    ∃ Y, jsonStringifyFields (p :: ps) = '"' :: Y := by
  obtain ⟨k, v⟩ := p
  have hfield : jsonStringifyField k v
      = '"' :: (escString k.toList ++ '"' :: ':' :: jsonStringify v) := by
    simp [jsonStringifyField]
  cases ps with
  | nil =>
    refine ⟨escString k.toList ++ '"' :: ':' :: jsonStringify v, ?_⟩
    simpa [jsonStringifyFields] using hfield
  | cons q qs =>
    refine ⟨(escString k.toList ++ '"' :: ':' :: jsonStringify v)
      ++ ',' :: jsonStringifyFields (q :: qs), ?_⟩
    have : jsonStringifyFields ((k, v) :: q :: qs)
        = jsonStringifyField k v ++ ',' :: jsonStringifyFields (q :: qs) := by
      simp [jsonStringifyFields]
    rw [this, hfield]
    simp

theorem sizeOf_JVal_pos (v : JVal) : 0 < sizeOf v := by
  cases v <;> simp_arith

theorem parseVal_stringify_aux (n : Nat) : ∀ (v : JVal), sizeOf v ≤ n →
    ∀ (rest : List Char) (fuel : Nat),
    Nval v ≤ fuel → noDigitHead rest = true →
    parseVal fuel (jsonStringify v ++ rest) = some (v, rest) := by
  induction n with
  | zero =>
    intro v hv
    exact absurd hv (by have := sizeOf_JVal_pos v; omega)
  | succ n ih =>
  intro v hv rest fuel hfuel hnd
  obtain ⟨f, rfl⟩ : ∃ f, fuel = f + 1 := ⟨fuel - 1, by have := Nval_pos v; omega⟩
  cases v with
  | null =>
    have hs : jsonStringify JVal.null = ['n', 'u', 'l', 'l'] := by simp [jsonStringify]
    rw [hs]
    simp only [List.cons_append, List.nil_append]
    exact pv_null f rest
  | bool b =>
    cases b with
    | true =>
      have hs : jsonStringify (JVal.bool true) = ['t', 'r', 'u', 'e'] := by
        simp [jsonStringify]
      rw [hs]
      simp only [List.cons_append, List.nil_append]
      exact pv_true f rest
    | false =>
      have hs : jsonStringify (JVal.bool false) = ['f', 'a', 'l', 's', 'e'] := by
        simp [jsonStringify]
      rw [hs]
      simp only [List.cons_append, List.nil_append]
      exact pv_false f rest
  | num i =>
    have htd : takeDigits (natDigits i.natAbs ++ rest) = (natDigits i.natAbs, rest) :=
      takeDigits_append _ _ (natDigits_all_digits i.natAbs) hnd
    by_cases hi : i < 0
    · have hs : jsonStringify (JVal.num i) = '-' :: natDigits i.natAbs := by
        simp [jsonStringify, intDigits, hi]
      rw [hs]
      simp only [List.cons_append]
      rw [pv_neg, htd]
      simp only [natDigits_ne_nil i.natAbs, if_false]
      rw [natFromDigits_natDigits]
      have hv : (-(i.natAbs : Int)) = i := by omega
      rw [hv]
    · have hs : jsonStringify (JVal.num i) = natDigits i.natAbs := by
        simp [jsonStringify, intDigits, hi]
      cases hnd2 : natDigits i.natAbs with
      | nil => exact absurd hnd2 (natDigits_ne_nil _)
      | cons c cs =>
        have hc : isDigitCh c = true :=
          natDigits_all_digits i.natAbs c (by rw [hnd2]; simp)
        rw [hs, hnd2]
        simp only [List.cons_append]
        rw [pv_digit f c _ hc]
        have hback : c :: (cs ++ rest) = natDigits i.natAbs ++ rest := by
          rw [hnd2]; simp
        rw [hback, htd, natFromDigits_natDigits]
        have hv : ((i.natAbs : Nat) : Int) = i := by omega
        rw [hv]
  | str s =>
    have hs : jsonStringify (JVal.str s) = '"' :: (escString s.toList ++ ['"']) := by
      simp [jsonStringify]
    rw [hs]
    simp only [List.cons_append, List.append_assoc, List.nil_append]
    rw [pv_str, parseStringBody_escString s.toList rest]
    simp [stringMk_toList]
  | arr xs =>
    cases xs with
    | nil =>
      have hs : jsonStringify (JVal.arr []) = ['[', ']'] := by
        simp [jsonStringify, jsonStringifyElems]
      rw [hs]
      simp only [List.cons_append, List.nil_append]
      exact pv_arr_nil f rest
    | cons x xs' =>
      obtain ⟨T, hT⟩ := jsonStringifyElems_cons_decomp x xs'
      obtain ⟨c, cs, hcs, hc⟩ := jsonStringify_head x
      have hs : jsonStringify (JVal.arr (x :: xs')) ++ rest
          = '[' :: (jsonStringifyElems (x :: xs') ++ ']' :: rest) := by
        simp [jsonStringify]
      have hflat : jsonStringifyElems (x :: xs') ++ ']' :: rest
          = c :: (cs ++ (T ++ ']' :: rest)) := by
        rw [hT, hcs]; simp
      rw [hs, hflat, pv_arr f c _ hc, ← hflat]
      have hih' : ∀ u ∈ x :: xs', ∀ r fu, Nval u ≤ fu → noDigitHead r = true →
          parseVal fu (jsonStringify u ++ r) = some (u, r) := by
        intro u hu
        have h1 := List.sizeOf_lt_of_mem hu
        have h2 : sizeOf (JVal.arr (x :: xs')) = 1 + sizeOf (x :: xs') := by simp
        exact ih u (by omega)
      rw [parseElems_stringify (x :: xs') hih' (by simp) rest f
        (by rw [Nval_arr_cons] at hfuel; omega)]
      rfl
  | obj es =>
    cases es with
    | nil =>
      have hs : jsonStringify (JVal.obj []) = ['\x7b', '\x7d'] := by
        simp [jsonStringify, jsonStringifyFields]
      rw [hs]
      simp only [List.cons_append, List.nil_append]
      exact pv_obj_nil f rest
    | cons p ps =>
      obtain ⟨Y, hY⟩ := jsonStringifyFields_cons_head p ps
      have hs : jsonStringify (JVal.obj (p :: ps)) ++ rest
          = '\x7b' :: (jsonStringifyFields (p :: ps) ++ '\x7d' :: rest) := by
        simp [jsonStringify]
      have hflat : jsonStringifyFields (p :: ps) ++ '\x7d' :: rest
          = '"' :: (Y ++ '\x7d' :: rest) := by
        rw [hY]; simp
      rw [hs, hflat, pv_obj f '"' _ (by decide), ← hflat]
      have hih' : ∀ q ∈ p :: ps, ∀ r fu, Nval q.2 ≤ fu → noDigitHead r = true →
          parseVal fu (jsonStringify q.2 ++ r) = some (q.2, r) := by
        intro q hq
        have h1 := List.sizeOf_lt_of_mem hq
        have h2 : sizeOf q.2 < sizeOf q := by
          obtain ⟨a, b⟩ := q
          simp
        have h3 : sizeOf (JVal.obj (p :: ps)) = 1 + sizeOf (p :: ps) := by simp
        exact ih q.2 (by omega)
      rw [parseFields_stringify (p :: ps) hih' (by simp) rest f
        (by rw [Nval_obj_cons] at hfuel; omega)]
      rfl

theorem parseVal_stringify (v : JVal) (rest : List Char) (fuel : Nat)
    (hfuel : Nval v ≤ fuel) (hnd : noDigitHead rest = true) :
    parseVal fuel (jsonStringify v ++ rest) = some (v, rest) :=
  parseVal_stringify_aux (sizeOf v) v (Nat.le_refl _) rest fuel hfuel hnd

theorem Nval_null : Nval JVal.null = 1 := by rw [Nval] <;> simp

theorem Nval_bool (b : Bool) : Nval (JVal.bool b) = 1 := by rw [Nval] <;> simp

theorem Nval_num (i : Int) : Nval (JVal.num i) = 1 := by rw [Nval] <;> simp

theorem Nval_str (s : String) : Nval (JVal.str s) = 1 := by rw [Nval] <;> simp

theorem Nval_arr_nil : Nval (JVal.arr []) = 1 := by rw [Nval] <;> simp

theorem Nval_obj_nil : Nval (JVal.obj []) = 1 := by rw [Nval] <;> simp

theorem intDigits_ne_nil (i : Int) : intDigits i ≠ [] := by
  unfold intDigits
  split
  · simp
  · exact natDigits_ne_nil _

theorem Nelems_le (xs : List JVal)
    (hih : ∀ u ∈ xs, Nval u ≤ 2 * (jsonStringify u).length) :
    Nelems xs ≤ 2 * (jsonStringifyElems xs).length + 1 := by
  induction xs with
  | nil => simp [Nelems, jsonStringifyElems]
  | cons v vs ih =>
    cases vs with
    | nil =>
      have h1 := hih v (by simp)
      have e1 : Nelems [v] = 1 + Nval v := by simp [Nelems]
      have e2 : jsonStringifyElems [v] = jsonStringify v := by simp [jsonStringifyElems]
      rw [e1, e2]
      omega
    | cons w ws =>
      have h1 := hih v (by simp)
      have h2 := ih (fun u hu => hih u (by simp [hu]))
      have e1 : Nelems (v :: w :: ws) = 1 + Nval v + Nelems (w :: ws) := by rw [Nelems]
      have e2 : jsonStringifyElems (v :: w :: ws)
          = jsonStringify v ++ ',' :: jsonStringifyElems (w :: ws) := by
        simp [jsonStringifyElems]
      rw [e1, e2]
      simp only [List.length_append, List.length_cons]
      omega

theorem Nfields_le (fs : List (String × JVal))
    (hih : ∀ q ∈ fs, Nval q.2 ≤ 2 * (jsonStringify q.2).length) :
    Nfields fs ≤ 2 * (jsonStringifyFields fs).length + 1 := by
  induction fs with
  | nil => simp [Nfields, jsonStringifyFields]
  | cons p ps ih =>
    obtain ⟨k, v⟩ := p
    have hf : jsonStringifyField k v
        = '"' :: (escString k.toList ++ '"' :: ':' :: jsonStringify v) := by
      simp [jsonStringifyField]
    cases ps with
    | nil =>
      have h1 : Nval v ≤ 2 * (jsonStringify v).length := hih (k, v) (by simp)
      have e1 : Nfields [(k, v)] = 1 + Nval v := by simp [Nfields]
      have e2 : jsonStringifyFields [(k, v)] = jsonStringifyField k v := by
        simp [jsonStringifyFields]
      rw [e1, e2, hf]
      simp only [List.length_cons, List.length_append]
      omega
    | cons q qs =>
      have h1 : Nval v ≤ 2 * (jsonStringify v).length := hih (k, v) (by simp)
      have h2 := ih (fun u hu => hih u (by simp [hu]))
      have e1 : Nfields ((k, v) :: q :: qs) = 1 + Nval v + Nfields (q :: qs) := by
        rw [Nfields]
      have e2 : jsonStringifyFields ((k, v) :: q :: qs)
          = jsonStringifyField k v ++ ',' :: jsonStringifyFields (q :: qs) := by
        simp [jsonStringifyFields]
      rw [e1, e2, hf]
      simp only [List.length_append, List.length_cons]
      omega

theorem Nval_le_aux (n : Nat) : ∀ v : JVal, sizeOf v ≤ n →
    Nval v ≤ 2 * (jsonStringify v).length := by
  induction n with
  | zero =>
    intro v hv
    exact absurd hv (by have := sizeOf_JVal_pos v; omega)
  | succ n ih =>
    intro v hv
    cases v with
    | null => rw [Nval_null]; simp [jsonStringify]
    | bool b => rw [Nval_bool]; cases b <;> simp [jsonStringify]
    | num i =>
      rw [Nval_num]
      have hs : jsonStringify (JVal.num i) = intDigits i := by simp [jsonStringify]
      rw [hs]
      have h1 : intDigits i ≠ [] := intDigits_ne_nil i
      have h2 : 0 < (intDigits i).length := List.length_pos.mpr h1
      omega
    | str s =>
      rw [Nval_str]
      simp [jsonStringify]
      omega
    | arr xs =>
      cases xs with
      | nil => rw [Nval_arr_nil]; simp [jsonStringify, jsonStringifyElems]
      | cons x xs' =>
        have hih' : ∀ u ∈ x :: xs', Nval u ≤ 2 * (jsonStringify u).length := by
          intro u hu
          have h1 := List.sizeOf_lt_of_mem hu
          have h2 : sizeOf (JVal.arr (x :: xs')) = 1 + sizeOf (x :: xs') := by simp
          exact ih u (by omega)
        have h1 := Nelems_le (x :: xs') hih'
        rw [Nval_arr_cons]
        have hs : jsonStringify (JVal.arr (x :: xs'))
            = '[' :: (jsonStringifyElems (x :: xs') ++ [']']) := by simp [jsonStringify]
        rw [hs]
        simp only [List.length_cons, List.length_append]
        omega
    | obj es =>
      cases es with
      | nil => rw [Nval_obj_nil]; simp [jsonStringify, jsonStringifyFields]
      | cons p ps =>
        have hih' : ∀ q ∈ p :: ps, Nval q.2 ≤ 2 * (jsonStringify q.2).length := by
          intro q hq
          have h1 := List.sizeOf_lt_of_mem hq
          have h2 : sizeOf q.2 < sizeOf q := by
            obtain ⟨a, b⟩ := q
            simp
          have h3 : sizeOf (JVal.obj (p :: ps)) = 1 + sizeOf (p :: ps) := by simp
          exact ih q.2 (by omega)
        have h1 := Nfields_le (p :: ps) hih'
        rw [Nval_obj_cons]
        have hs : jsonStringify (JVal.obj (p :: ps))
            = '\x7b' :: (jsonStringifyFields (p :: ps) ++ ['\x7d']) := by
          simp [jsonStringify]
        rw [hs]
        simp only [List.length_cons, List.length_append]
        omega

theorem Nval_le (v : JVal) : Nval v ≤ 2 * (jsonStringify v).length :=
  Nval_le_aux (sizeOf v) v (Nat.le_refl _)

theorem jsonParse_stringify (v : JVal) :
    jsonParse (String.mk (jsonStringify v)) = some v := by
  unfold jsonParse
  have hlen : (String.mk (jsonStringify v)).length = (jsonStringify v).length := rfl
  have hlist : (String.mk (jsonStringify v)).toList = jsonStringify v := rfl
  rw [hlen, hlist]
  have h1 : parseVal (2 * (jsonStringify v).length + 1) (jsonStringify v ++ [])
      = some (v, []) :=
    parseVal_stringify v [] _ (by have := Nval_le v; omega) rfl
  rw [List.append_nil] at h1
  rw [h1]

theorem urlKeepChar_spec (c : Char) (h : urlKeepChar c = true) :
    c.toNat < 0x80 ∧ c.toNat ≠ 37 ∧ c.toNat ≠ 43 ∧ c.toNat ≠ 32
      ∧ c.toNat ≠ 38 ∧ c.toNat ≠ 61 := by
  unfold urlKeepChar at h
  simp [Char.isAlphanum, Char.isAlpha, Char.isDigit, Char.isUpper, Char.isLower,
    Char.le_def, Char.ext_iff] at h
  have hv : c.toNat = c.val.toNat := rfl
  rcases h with (((((⟨h1, h2⟩ | ⟨h1, h2⟩) | ⟨h1, h2⟩) | h1) | h1) | h1) | h1
  · have a1 : (65 : UInt32).toNat ≤ c.val.toNat := h1
    have a2 : c.val.toNat ≤ (90 : UInt32).toNat := h2
    have b1 : (65 : UInt32).toNat = 65 := rfl
    have b2 : (90 : UInt32).toNat = 90 := rfl
    omega
  · have a1 : (97 : UInt32).toNat ≤ c.val.toNat := h1
    have a2 : c.val.toNat ≤ (122 : UInt32).toNat := h2
    have b1 : (97 : UInt32).toNat = 97 := rfl
    have b2 : (122 : UInt32).toNat = 122 := rfl
    omega
  · have a1 : (48 : UInt32).toNat ≤ c.val.toNat := h1
    have a2 : c.val.toNat ≤ (57 : UInt32).toNat := h2
    have b1 : (48 : UInt32).toNat = 48 := rfl
    have b2 : (57 : UInt32).toNat = 57 := rfl
    omega
  · have a1 : c.toNat = 42 := by rw [hv, h1]; rfl
    omega
  · have a1 : c.toNat = 45 := by rw [hv, h1]; rfl
    omega
  · have a1 : c.toNat = 46 := by rw [hv, h1]; rfl
    omega
  · have a1 : c.toNat = 95 := by rw [hv, h1]; rfl
    omega

theorem hexVal_hexDigitUpper (n : Nat) (h : n < 16) :
    hexVal? (hexDigitUpper n) = some n := by
  interval_cases n <;> decide

theorem pdb_other (c : Char) (hc : c ≠ '%') (hp : c ≠ '+') (cs : List Char) :
    percentDecodeBytes (c :: cs) = (percentDecodeBytes cs).map fun bs => c.toNat :: bs := by
  rw [percentDecodeBytes.eq_def]
  simp only []
  rw [if_neg hc, if_neg hp]

theorem pdb_plus (cs : List Char) :
    percentDecodeBytes ('+' :: cs) = (percentDecodeBytes cs).map fun bs => 32 :: bs := by
  rw [percentDecodeBytes.eq_def]
  simp only []
  rw [if_neg (by decide)]
  simp only [if_true]

theorem pdb_percent (h1 h2 : Nat) (hh1 : h1 < 16) (hh2 : h2 < 16) (cs : List Char) :
    percentDecodeBytes ('%' :: hexDigitUpper h1 :: hexDigitUpper h2 :: cs)
      = (percentDecodeBytes cs).map fun bs => (16 * h1 + h2) :: bs := by
  rw [percentDecodeBytes.eq_def]
  simp only []
  simp only [if_true]
  simp only [hexVal_hexDigitUpper h1 hh1, hexVal_hexDigitUpper h2 hh2]

theorem percentByte_decode (b : Nat) (hb : b < 256) (cs : List Char) :
    percentDecodeBytes (percentByte b ++ cs)
      = (percentDecodeBytes cs).map fun bs => b :: bs := by
  have e : percentByte b = ['%', hexDigitUpper (b / 16), hexDigitUpper (b % 16)] := rfl
  rw [e]
  simp only [List.cons_append, List.nil_append]
  rw [pdb_percent (b / 16) (b % 16) (by omega) (by omega)]
  have harg : 16 * (b / 16) + b % 16 = b := by omega
  rw [harg]

theorem pdb_bytes (bytes : List Nat) (hb : ∀ b ∈ bytes, b < 256) (cs : List Char) :
    percentDecodeBytes (bytes.foldr (fun b acc => percentByte b ++ acc) [] ++ cs)
      = (percentDecodeBytes cs).map fun bs => bytes ++ bs := by
  induction bytes with
  | nil =>
    simp only [List.foldr_nil, List.nil_append]
    cases percentDecodeBytes cs <;> simp
  | cons b bs ih =>
    simp only [List.foldr_cons, List.append_assoc]
    rw [percentByte_decode b (hb b (by simp)) _]
    rw [ih (fun x hx => hb x (by simp [hx]))]
    cases percentDecodeBytes cs <;> simp

theorem utf8Bytes_lt (c : Char) : ∀ b ∈ utf8Bytes c, b < 256 := by
  have h := char_toNat_lt c
  intro b hb
  simp only [utf8Bytes] at hb
  split_ifs at hb with h1 h2 h3 <;> simp at hb <;> omega

theorem ud_cons_ascii (b : Nat) (hb : b < 128) (bs : List Nat) :
    utf8Decode (b :: bs) = (utf8Decode bs).map fun cs => Char.ofNat b :: cs := by
  rw [utf8Decode.eq_def]
  simp only []
  rw [if_pos hb]

theorem ud_cons_two (b b2 : Nat) (h1 : 192 ≤ b) (h2 : b < 224)
    (h3 : 128 ≤ b2) (h4 : b2 < 192) (bs : List Nat) :
    utf8Decode (b :: b2 :: bs)
      = (utf8Decode bs).map fun cs => Char.ofNat ((b - 192) * 64 + (b2 - 128)) :: cs := by
  rw [utf8Decode.eq_def]
  simp only [List.getD_cons_zero, List.getD_cons_succ, List.length_cons,
    List.drop_succ_cons, List.drop_zero]
  rw [if_neg (by omega), if_pos h2, if_pos (by refine ⟨by omega, h1, h3, h4⟩)]

theorem ud_cons_three (b b2 b3 : Nat) (h1 : 224 ≤ b) (h2 : b < 240)
    (h3 : 128 ≤ b2) (h4 : b2 < 192) (h5 : 128 ≤ b3) (h6 : b3 < 192) (bs : List Nat) :
    utf8Decode (b :: b2 :: b3 :: bs)
      = (utf8Decode bs).map fun cs =>
          Char.ofNat ((b - 224) * 4096 + (b2 - 128) * 64 + (b3 - 128)) :: cs := by
  rw [utf8Decode.eq_def]
  simp only [List.getD_cons_zero, List.getD_cons_succ, List.length_cons,
    List.drop_succ_cons, List.drop_zero]
  rw [if_neg (by omega), if_neg (by omega), if_pos h2,
    if_pos (by refine ⟨by omega, h3, h4, h5, h6⟩)]

theorem ud_cons_four (b b2 b3 b4 : Nat) (h1 : 240 ≤ b) (h2 : b < 248)
    (h3 : 128 ≤ b2) (h4 : b2 < 192) (h5 : 128 ≤ b3) (h6 : b3 < 192)
    (h7 : 128 ≤ b4) (h8 : b4 < 192) (bs : List Nat) :
    utf8Decode (b :: b2 :: b3 :: b4 :: bs)
      = (utf8Decode bs).map fun cs =>
          Char.ofNat ((b - 240) * 262144 + (b2 - 128) * 4096
            + (b3 - 128) * 64 + (b4 - 128)) :: cs := by
  rw [utf8Decode.eq_def]
  simp only [List.getD_cons_zero, List.getD_cons_succ, List.length_cons,
    List.drop_succ_cons, List.drop_zero]
  rw [if_neg (by omega), if_neg (by omega), if_neg (by omega),
    if_pos (by refine ⟨by omega, h2, h3, h4, h5, h6, h7, h8⟩)]

theorem utf8Decode_utf8Bytes (c : Char) (bs : List Nat) :
    utf8Decode (utf8Bytes c ++ bs) = (utf8Decode bs).map fun cs => c :: cs := by
  have hlt := char_toNat_lt c
  by_cases h1 : c.toNat < 128
  · have e : utf8Bytes c = [c.toNat] := by simp [utf8Bytes, h1]
    rw [e]
    simp only [List.cons_append, List.nil_append]
    rw [ud_cons_ascii c.toNat h1, Char.ofNat_toNat]
  · by_cases h2 : c.toNat < 2048
    · have e : utf8Bytes c = [192 + c.toNat / 64, 128 + c.toNat % 64] := by
        simp [utf8Bytes, h1, h2]
      rw [e]
      simp only [List.cons_append, List.nil_append]
      rw [ud_cons_two _ _ (by omega) (by omega) (by omega) (by omega)]
      have harg : (192 + c.toNat / 64 - 192) * 64 + (128 + c.toNat % 64 - 128)
          = c.toNat := by omega
      rw [harg, Char.ofNat_toNat]
    · by_cases h3 : c.toNat < 65536
      · have e : utf8Bytes c
            = [224 + c.toNat / 4096, 128 + c.toNat / 64 % 64, 128 + c.toNat % 64] := by
          simp [utf8Bytes, h1, h2, h3]
        rw [e]
        simp only [List.cons_append, List.nil_append]
        rw [ud_cons_three _ _ _ (by omega) (by omega) (by omega) (by omega)
          (by omega) (by omega)]
        have harg : (224 + c.toNat / 4096 - 224) * 4096
            + (128 + c.toNat / 64 % 64 - 128) * 64 + (128 + c.toNat % 64 - 128)
            = c.toNat := by omega
        rw [harg, Char.ofNat_toNat]
      · have e : utf8Bytes c
            = [240 + c.toNat / 262144, 128 + c.toNat / 4096 % 64,
               128 + c.toNat / 64 % 64, 128 + c.toNat % 64] := by
          simp [utf8Bytes, h1, h2, h3]
        rw [e]
        simp only [List.cons_append, List.nil_append]
        rw [ud_cons_four _ _ _ _ (by omega) (by omega) (by omega) (by omega)
          (by omega) (by omega) (by omega) (by omega)]
        have harg : (240 + c.toNat / 262144 - 240) * 262144
            + (128 + c.toNat / 4096 % 64 - 128) * 4096
            + (128 + c.toNat / 64 % 64 - 128) * 64 + (128 + c.toNat % 64 - 128)
            = c.toNat := by omega
        rw [harg, Char.ofNat_toNat]

theorem encodeComponentChar_decode (c : Char) (cs : List Char) :
    percentDecodeBytes (encodeComponentChar c ++ cs)
      = (percentDecodeBytes cs).map fun bs => utf8Bytes c ++ bs := by
  unfold encodeComponentChar
  by_cases hk : urlKeepChar c
  · obtain ⟨hlt, h37, h43, _, _, _⟩ := urlKeepChar_spec c hk
    rw [if_pos hk]
    simp only [List.cons_append, List.nil_append]
    rw [pdb_other c (fun e => h37 (by rw [e]; rfl)) (fun e => h43 (by rw [e]; rfl))]
    have e : utf8Bytes c = [c.toNat] := by simp [utf8Bytes, hlt]
    rw [e]
    cases percentDecodeBytes cs <;> simp
  · by_cases hs : c = ' '
    · subst hs
      rw [if_neg hk, if_pos rfl]
      simp only [List.cons_append, List.nil_append]
      rw [pdb_plus]
      have e : utf8Bytes ' ' = [32] := by decide
      rw [e]
      cases percentDecodeBytes cs <;> simp
    · rw [if_neg hk, if_neg hs]
      exact pdb_bytes (utf8Bytes c) (utf8Bytes_lt c) cs

theorem encodeComponent_decodeBytes (l : List Char) (cs : List Char) :
    percentDecodeBytes (encodeComponent l ++ cs)
      = (percentDecodeBytes cs).map fun bs => utf8Encode l ++ bs := by
  induction l with
  | nil =>
    simp only [encodeComponent, utf8Encode, List.nil_append]
    cases percentDecodeBytes cs <;> simp
  | cons c l ih =>
    simp only [encodeComponent, utf8Encode, List.append_assoc]
    rw [encodeComponentChar_decode, ih]
    cases percentDecodeBytes cs <;> simp

theorem utf8Decode_encode (l : List Char) (bs : List Nat) :
    utf8Decode (utf8Encode l ++ bs) = (utf8Decode bs).map fun cs => l ++ cs := by
  induction l with
  | nil =>
    simp only [utf8Encode, List.nil_append]
    cases utf8Decode bs <;> simp
  | cons c l ih =>
    simp only [utf8Encode, List.append_assoc]
    rw [utf8Decode_utf8Bytes, ih]
    cases utf8Decode bs <;> simp

theorem decodeComponent_encodeComponent (l : List Char) :
    decodeComponent (encodeComponent l) = some l := by
  unfold decodeComponent
  have h1 := encodeComponent_decodeBytes l []
  rw [List.append_nil] at h1
  rw [h1]
  have h0 : percentDecodeBytes [] = some [] := rfl
  rw [h0]
  have h2 := utf8Decode_encode l []
  rw [List.append_nil] at h2
  have h3 : utf8Decode [] = some [] := by rw [utf8Decode.eq_def]
  rw [h3] at h2
  simp only [Option.map_some', Option.some_bind, h2, List.append_nil]

theorem splitSep_no_sep (sep : Char) (cs : List Char) (h : sep ∉ cs) :
    splitSep sep cs = [cs] := by
  induction cs with
  | nil => rfl
  | cons c cs ih =>
    have hc : c ≠ sep := fun e => h (by simp [e])
    simp only [splitSep, if_neg hc, ih (fun hm => h (by simp [hm]))]
    rfl

theorem splitSep_append (sep : Char) (a rest : List Char) (h : sep ∉ a) :
    splitSep sep (a ++ sep :: rest) = a :: splitSep sep rest := by
  induction a with
  | nil => simp [splitSep]
  | cons c a ih =>
    have hc : c ≠ sep := fun e => h (by simp [e])
    simp only [List.cons_append, splitSep, if_neg hc, List.append_eq,
      ih (fun hm => h (by simp [hm]))]
    rfl

theorem splitFirstEq_append (a b : List Char) (h : '=' ∉ a) :
    splitFirstEq (a ++ '=' :: b) = some (a, b) := by
  induction a with
  | nil => simp [splitFirstEq]
  | cons c a ih =>
    have hc : c ≠ '=' := fun e => h (by simp [e])
    simp only [List.cons_append, splitFirstEq, if_neg hc, List.append_eq,
      ih (fun hm => h (by simp [hm]))]
    rfl

theorem hexDigitUpper_not_special (n : Nat) (h : n < 16) :
    (hexDigitUpper n).toNat ≠ 38 ∧ (hexDigitUpper n).toNat ≠ 61 := by
  interval_cases n <;> refine ⟨by decide, by decide⟩

theorem percentByte_not_special (b : Nat) (hb : b < 256) :
    ∀ c ∈ percentByte b, c.toNat ≠ 38 ∧ c.toNat ≠ 61 := by
  intro c hc
  have e : percentByte b = ['%', hexDigitUpper (b / 16), hexDigitUpper (b % 16)] := rfl
  rw [e] at hc
  simp only [List.mem_cons, List.not_mem_nil, or_false] at hc
  rcases hc with rfl | rfl | rfl
  · refine ⟨by decide, by decide⟩
  · exact hexDigitUpper_not_special _ (by omega)
  · exact hexDigitUpper_not_special _ (by omega)

theorem foldr_percentByte_mem (bytes : List Nat) (c : Char)
    (hc : c ∈ bytes.foldr (fun b acc => percentByte b ++ acc) []) :
    ∃ b ∈ bytes, c ∈ percentByte b := by
  induction bytes with
  | nil => simp at hc
  | cons b bs ih =>
    simp only [List.foldr_cons, List.mem_append] at hc
    rcases hc with hc | hc
    · exact ⟨b, by simp, hc⟩
    · obtain ⟨b2, hb2, hcb⟩ := ih hc
      exact ⟨b2, by simp [hb2], hcb⟩

theorem encodeComponentChar_not_special (c : Char) :
    ∀ d ∈ encodeComponentChar c, d.toNat ≠ 38 ∧ d.toNat ≠ 61 := by
  intro d hd
  unfold encodeComponentChar at hd
  by_cases hk : urlKeepChar c
  · rw [if_pos hk] at hd
    simp only [List.mem_singleton] at hd
    subst hd
    obtain ⟨_, _, _, _, h38, h61⟩ := urlKeepChar_spec d hk
    exact ⟨h38, h61⟩
  · by_cases hs : c = ' '
    · rw [if_neg hk, if_pos hs] at hd
      simp only [List.mem_singleton] at hd
      subst hd
      refine ⟨by decide, by decide⟩
    · rw [if_neg hk, if_neg hs] at hd
      obtain ⟨b, hb, hcb⟩ := foldr_percentByte_mem _ d hd
      exact percentByte_not_special b (utf8Bytes_lt c b hb) d hcb

theorem encodeComponent_not_special (l : List Char) :
    ∀ d ∈ encodeComponent l, d.toNat ≠ 38 ∧ d.toNat ≠ 61 := by
  intro d hd
  induction l with
  | nil => simp [encodeComponent] at hd
  | cons c l ih =>
    simp only [encodeComponent, List.mem_append] at hd
    rcases hd with hd | hd
    · exact encodeComponentChar_not_special c d hd
    · exact ih hd

theorem amp_not_mem_encodeComponent (l : List Char) : '&' ∉ encodeComponent l :=
  fun h => (encodeComponent_not_special l '&' h).1 (by decide)

theorem eq_not_mem_encodeComponent (l : List Char) : '=' ∉ encodeComponent l :=
  fun h => (encodeComponent_not_special l '=' h).2 (by decide)

theorem amp_not_mem_serializePair (k v : List Char) : '&' ∉ serializePair k v := by
  intro h
  unfold serializePair at h
  simp only [List.mem_append, List.mem_cons] at h
  rcases h with h | h | h
  · exact amp_not_mem_encodeComponent k h
  · exact absurd h (by decide)
  · exact amp_not_mem_encodeComponent v h

theorem splitFirstEq_serializePair (k v : List Char) :
    splitFirstEq (serializePair k v) = some (encodeComponent k, encodeComponent v) := by
  unfold serializePair
  exact splitFirstEq_append _ _ (eq_not_mem_encodeComponent k)

theorem splitAmp_serializePairs (ps : List (List Char × List Char)) (h : ps ≠ []) :
    splitSep '&' (serializePairs ps) = ps.map fun p => serializePair p.1 p.2 := by
  induction ps with
  | nil => exact absurd rfl h
  | cons p ps ih =>
    cases ps with
    | nil =>
      have e : serializePairs [p] = serializePair p.1 p.2 := by
        simp [serializePairs]
      rw [e, splitSep_no_sep _ _ (amp_not_mem_serializePair p.1 p.2)]
      rfl
    | cons q qs =>
      have e : serializePairs (p :: q :: qs)
          = serializePair p.1 p.2 ++ '&' :: serializePairs (q :: qs) := by
        simp [serializePairs]
      rw [e, splitSep_append _ _ _ (amp_not_mem_serializePair p.1 p.2),
        ih (by simp)]
      rfl

theorem decodePairs_map (ps : List (List Char × List Char)) :
    decodePairs (ps.map fun p => serializePair p.1 p.2) = some ps := by
  induction ps with
  | nil => rfl
  | cons p ps ih =>
    obtain ⟨k, v⟩ := p
    simp only [List.map_cons, decodePairs, splitFirstEq_serializePair,
      Option.some_bind]
    rw [decodeComponent_encodeComponent, decodeComponent_encodeComponent]
    simp only [Option.some_bind]
    rw [ih]
    rfl

theorem decodeQueryString_qmark (X : List Char) :
    decodeQueryString ('?' :: X) = decodePairs (splitSep '&' X) := by
  rw [decodeQueryString]
  rw [if_pos rfl]

/-- C8: the query-string encoder (FarFetchHelper.objectToQueryString)
returns the empty string on an empty mapping; on a non-empty mapping it
returns a `?`-prefixed URL-encoded string that decodes back to exactly
one entry per key, whose value text is the JSON serialization for
composite (array/object/null) values and the standard string coercion
for scalars; composite entries JSON-parse back to the original value. -/
theorem query_string_encoder_correct (es : List (String × JVal)) :
    (es = [] → objectToQueryString es = []) ∧
    (es ≠ [] → decodeQueryString (objectToQueryString es)
        = some (es.map fun p => (p.1.toList, queryValueString p.2))) ∧
    (∀ v : JVal, typeofIsObject v = true →
        jsonParse (String.mk (queryValueString v)) = some v) := by
  refine ⟨?_, ?_, ?_⟩
  · intro he
    subst he
    rfl
  · intro hne
    have hlen : es.length > 0 := by
      cases es
      · exact absurd rfl hne
      · simp
    unfold objectToQueryString
    rw [if_pos hlen]
    rw [decodeQueryString_qmark]
    rw [splitAmp_serializePairs _ (by simp [hne])]
    exact decodePairs_map _
  · intro v hv
    have e : queryValueString v = jsonStringify v := by
      unfold queryValueString
      rw [if_pos hv]
    rw [e]
    exact jsonParse_stringify v

theorem query_string_encoder_correct_witness :
    objectToQueryString ([] : List (String × JVal)) = []
    ∧ decodeQueryString (objectToQueryString [("a", JVal.arr [JVal.num 1])])
        = some [("a".toList, queryValueString (JVal.arr [JVal.num 1]))]
    ∧ jsonParse (String.mk (queryValueString (JVal.arr [JVal.num 1])))
        = some (JVal.arr [JVal.num 1]) :=
  ⟨(query_string_encoder_correct []).1 rfl,
   (query_string_encoder_correct [("a", JVal.arr [JVal.num 1])]).2.1 (by simp),
   (query_string_encoder_correct [("a", JVal.arr [JVal.num 1])]).2.2 _ rfl⟩

theorem heap_get_set_ne (l : Heap) (i r : Nat) (x : HCell) (h : r ≠ i) :
    List.get? (l.set i x) r = List.get? l r := by
  simp only [List.get?_eq_getElem?]
  rw [List.getElem?_set_ne (by omega)]

theorem heap_get_append (l1 l2 : Heap) (n : Nat) (h : n < l1.length) :
    List.get? (l1 ++ l2) n = List.get? l1 n := by
  simp only [List.get?_eq_getElem?, List.getElem?_append, if_pos h]

theorem heap_get_concat_length (l : Heap) (a : HCell) :
    List.get? (l ++ [a]) l.length = some a := by
  simp [List.get?_eq_getElem?]

theorem heap_get_some_lt (l : Heap) (r : Nat) (x : HCell)
    (h : List.get? l r = some x) : r < l.length :=
  (List.get?_eq_some.mp h).1

theorem hlookup_setKeyH_ne (cell : List (String × HVal)) (k k' : String)
    (v : HVal) (h : k' ≠ k) :
    hlookup (setKeyH cell k v) k' = hlookup cell k' := by
  induction cell with
  | nil => simp [setKeyH, hlookup, Ne.symm h]
  | cons p rest ih =>
    obtain ⟨k0, v0⟩ := p
    by_cases hk0 : k0 = k
    · subst hk0
      simp [setKeyH, hlookup, Ne.symm h]
    · simp [setKeyH, hlookup, hk0, ih]

theorem mem_of_hlookup (cell : List (String × HVal)) (k : String) (v : HVal)
    (h : hlookup cell k = some v) : (k, v) ∈ cell := by
  induction cell with
  | nil => simp [hlookup] at h
  | cons p rest ih =>
    obtain ⟨k0, v0⟩ := p
    by_cases hk0 : k0 = k
    · subst hk0
      simp [hlookup] at h
      simp [h]
    · simp [hlookup, hk0] at h
      simp [ih h]

theorem refLB_mono (n m : Nat) (hv : HVal) (hnm : n ≤ m)
    (h : refLB m hv = true) : refLB n hv = true := by
  cases hv with
  | prim v => rfl
  | ref r =>
    simp only [refLB, decide_eq_true_eq] at h ⊢
    omega

theorem allocFields_nil (h : Heap) : allocFields [] h = (h, []) := by
  rw [allocFields]

theorem allocFields_cons (k : String) (v : JVal) (es : List (String × JVal))
    (h : Heap) :
    allocFields ((k, v) :: es) h
      = ((allocFields es (allocVal v h).1).1,
         (k, (allocVal v h).2) :: (allocFields es (allocVal v h).1).2) := by
  rw [allocFields]

theorem allocVal_obj (es : List (String × JVal)) (h : Heap) :
    allocVal (.obj es) h
      = ((allocFields es h).1 ++ [(allocFields es h).2],
         .ref (allocFields es h).1.length) := by
  rw [allocVal]

theorem allocFields_spec (es : List (String × JVal))
    (hih : ∀ p ∈ es, ∀ h : Heap,
      (∃ t, (allocVal (Prod.snd p) h).1 = h ++ t)
        ∧ refLB h.length (allocVal (Prod.snd p) h).2 = true) :
    ∀ h : Heap,
      (∃ t, (allocFields es h).1 = h ++ t)
        ∧ ∀ q ∈ (allocFields es h).2, refLB h.length (Prod.snd q) = true := by
  induction es with
  | nil =>
    intro h
    rw [allocFields_nil]
    exact ⟨⟨[], by simp⟩, by simp⟩
  | cons p es ih =>
    intro h
    obtain ⟨k, v⟩ := p
    have h1 : (∃ t, (allocVal v h).1 = h ++ t)
        ∧ refLB h.length (allocVal v h).2 = true := hih (k, v) (by simp) h
    obtain ⟨⟨t1, ht1⟩, hr1⟩ := h1
    have h2 := ih (fun q hq hh => hih q (by simp [hq]) hh) (allocVal v h).1
    obtain ⟨⟨t2, ht2⟩, hr2⟩ := h2
    rw [allocFields_cons]
    refine ⟨⟨t1 ++ t2, by rw [ht2, ht1, List.append_assoc]⟩, ?_⟩
    intro q hq
    simp only [List.mem_cons] at hq
    rcases hq with rfl | hq
    · exact hr1
    · refine refLB_mono _ _ _ ?_ (hr2 q hq)
      rw [ht1]
      simp

theorem allocVal_spec_aux (n : Nat) : ∀ v : JVal, sizeOf v ≤ n → ∀ h : Heap,
    (∃ t, (allocVal v h).1 = h ++ t)
      ∧ refLB h.length (allocVal v h).2 = true
      ∧ (∀ R, (allocVal v h).2 = .ref R →
          ∃ cell, List.get? (allocVal v h).1 R = some cell
            ∧ ∀ q ∈ cell, refLB h.length (Prod.snd q) = true) := by
  induction n with
  | zero =>
    intro v hv
    exact absurd hv (by have := sizeOf_JVal_pos v; omega)
  | succ n ih =>
    intro v hv h
    cases v with
    | obj es =>
      have hih : ∀ p ∈ es, ∀ hh : Heap,
          (∃ t, (allocVal (Prod.snd p) hh).1 = hh ++ t)
            ∧ refLB hh.length (allocVal (Prod.snd p) hh).2 = true := by
        intro p hp hh
        have h1 := List.sizeOf_lt_of_mem hp
        have h2 : sizeOf (Prod.snd p) < sizeOf p := by
          obtain ⟨a, b⟩ := p
          simp
        have h3 : sizeOf (JVal.obj es) = 1 + sizeOf es := by simp
        have := ih (Prod.snd p) (by omega) hh
        exact ⟨this.1, this.2.1⟩
      obtain ⟨⟨t, ht⟩, hflds⟩ := allocFields_spec es hih h
      rw [allocVal_obj]
      refine ⟨⟨t ++ [(allocFields es h).2], by rw [ht, List.append_assoc]⟩, ?_, ?_⟩
      · simp only [refLB, decide_eq_true_eq]
        rw [ht]
        simp
      · intro R hR
        simp only [HVal.ref.injEq] at hR
        subst hR
        exact ⟨(allocFields es h).2, heap_get_concat_length _ _, hflds⟩
    | null =>
      have e : allocVal (JVal.null) h = (h, .prim (JVal.null)) := by rw [allocVal] <;> simp
      refine ⟨⟨[], by rw [e]; simp⟩, by rw [e]; rfl, ?_⟩
      intro R hR
      rw [e] at hR
      simp at hR
    | bool b =>
      have e : allocVal (JVal.bool b) h = (h, .prim (JVal.bool b)) := by rw [allocVal] <;> simp
      refine ⟨⟨[], by rw [e]; simp⟩, by rw [e]; rfl, ?_⟩
      intro R hR
      rw [e] at hR
      simp at hR
    | num i =>
      have e : allocVal (JVal.num i) h = (h, .prim (JVal.num i)) := by rw [allocVal] <;> simp
      refine ⟨⟨[], by rw [e]; simp⟩, by rw [e]; rfl, ?_⟩
      intro R hR
      rw [e] at hR
      simp at hR
    | str s =>
      have e : allocVal (JVal.str s) h = (h, .prim (JVal.str s)) := by rw [allocVal] <;> simp
      refine ⟨⟨[], by rw [e]; simp⟩, by rw [e]; rfl, ?_⟩
      intro R hR
      rw [e] at hR
      simp at hR
    | arr xs =>
      have e : allocVal (JVal.arr xs) h = (h, .prim (JVal.arr xs)) := by rw [allocVal] <;> simp
      refine ⟨⟨[], by rw [e]; simp⟩, by rw [e]; rfl, ?_⟩
      intro R hR
      rw [e] at hR
      simp at hR

theorem allocVal_spec (v : JVal) (h : Heap) :
    (∃ t, (allocVal v h).1 = h ++ t)
      ∧ refLB h.length (allocVal v h).2 = true
      ∧ (∀ R, (allocVal v h).2 = .ref R →
          ∃ cell, List.get? (allocVal v h).1 R = some cell
            ∧ ∀ q ∈ cell, refLB h.length (Prod.snd q) = true) :=
  allocVal_spec_aux (sizeOf v) v (Nat.le_refl _) h

theorem heap_get_set_self (l : Heap) (i : Nat) (x : HCell) (h : i < l.length) :
    List.get? (l.set i x) i = some x := by
  simp [List.get?_eq_getElem?, List.getElem?_set_self, h]

theorem setField_frame (h : Heap) (R : Nat) (k : String) (v : HVal) (r : Nat)
    (hr : r ≠ R) :
    List.get? (setField h R k v) r = List.get? h r := by
  unfold setField
  cases hx : List.get? h R with
  | none => rfl
  | some cell => exact heap_get_set_ne _ _ _ _ hr

theorem deleteCT_frame (h : Heap) (R r : Nat)
    (hrh : ∀ rh, heapLookupField h R "headers" = some (.ref rh) → r ≠ rh) :
    List.get? (deleteCT h R) r = List.get? h r := by
  unfold deleteCT
  cases hx : heapLookupField h R "headers" with
  | none => rfl
  | some hv =>
    cases hv with
    | prim v => rfl
    | ref rh =>
      simp only []
      cases hy : List.get? h rh with
      | none => rfl
      | some cell => exact heap_get_set_ne _ _ _ _ (hrh rh hx)

theorem heapLookupField_setField_ne (h : Heap) (R : Nat) (k k2 : String)
    (v : HVal) (hk : k2 ≠ k) :
    heapLookupField (setField h R k v) R k2 = heapLookupField h R k2 := by
  unfold setField heapLookupField
  cases hx : List.get? h R with
  | none =>
    simp only []
    rw [hx]
  | some cell =>
    simp only []
    rw [heap_get_set_self _ _ _ (heap_get_some_lt _ _ _ hx)]
    exact hlookup_setKeyH_ne cell k k2 v hk

theorem mutatePhase_frame (F : Nat) (h : Heap) (R : Nat) (a : SFOHArgs)
    (out : Heap × Except JSErr Nat)
    (hres : mutatePhase F h R a = some out) :
    (∀ r, r < h.length → r ≠ R →
      (∀ rh, heapLookupField h R "headers" = some (.ref rh) → r ≠ rh) →
      List.get? out.1 r = List.get? h r)
    ∧ (∀ R2, out.2 = .ok R2 → R2 = R ∨ h.length ≤ R2) := by
  unfold mutatePhase at hres
  cases hro : readVal F h (.ref R) with
  | none =>
    rw [hro] at hres
    simp at hres
  | some options =>
    rw [hro] at hres
    simp only [] at hres
    by_cases hf : a.files
    · rw [if_pos hf] at hres
      simp only [Option.some.injEq] at hres
      subst hres
      constructor
      · intro r hrlen hrR hrh
        have e1 : ∀ rh,
            heapLookupField (setField h R "body" (.prim (.str "[FormData]"))) R
              "headers" = some (.ref rh) → r ≠ rh := by
          intro rh he
          rw [heapLookupField_setField_ne _ _ _ _ _ (by decide)] at he
          exact hrh rh he
        rw [deleteCT_frame _ _ _ e1, setField_frame _ _ _ _ _ hrR]
      · intro R2 h2
        simp at h2
        omega
    · rw [if_neg hf] at hres
      by_cases hd : a.data.length > 0
      · rw [if_pos hd] at hres
        by_cases hm : (methodIs options "GET" || methodIs options "DELETE"
            || methodIs options "HEAD") = true
        · rw [if_pos hm] at hres
          by_cases hq : (a.data.length > 0 && a.URLParams.length > 0) = true
          · rw [if_pos hq] at hres
            simp only [Option.some.injEq] at hres
            subst hres
            exact ⟨fun r _ _ _ => rfl, fun R2 h2 => by simp at h2⟩
          · rw [if_neg hq] at hres
            simp only [Option.some.injEq] at hres
            subst hres
            exact ⟨fun r _ _ _ => rfl, fun R2 h2 => by simp at h2; omega⟩
        · rw [if_neg hm] at hres
          by_cases hfu : isFormURLEncodedOf options = true
          · rw [if_pos hfu] at hres
            simp only [Option.some.injEq] at hres
            subst hres
            constructor
            · intro r hrlen hrR hrh
              exact setField_frame _ _ _ _ _ hrR
            · intro R2 h2
              simp at h2
              omega
          · rw [if_neg hfu] at hres
            by_cases hp : (methodIs options "POST" || methodIs options "PUT"
                || methodIs options "PATCH") = true
            · rw [if_pos hp] at hres
              obtain ⟨⟨t, ht⟩, hrlb, hroot⟩ := allocVal_spec (deepMerge options
                (.obj [("headers", .obj [("Content-Type",
                  .str "application/json")])])) h
              cases hpv : (allocVal (deepMerge options
                  (.obj [("headers", .obj [("Content-Type",
                    .str "application/json")])])) h).2 with
              | prim v =>
                rw [hpv] at hres
                simp at hres
              | ref R2 =>
                rw [hpv] at hres
                simp only [Option.some.injEq] at hres
                subst hres
                rw [hpv] at hrlb
                simp only [refLB, decide_eq_true_eq] at hrlb
                constructor
                · intro r hrlen hrR hrh
                  rw [setField_frame _ _ _ _ _ (by omega)]
                  rw [ht, heap_get_append _ _ _ hrlen]
                · intro R3 h3
                  simp at h3
                  omega
            · rw [if_neg hp] at hres
              simp only [Option.some.injEq] at hres
              subst hres
              exact ⟨fun r _ _ _ => rfl, fun R2 h2 => by simp at h2; omega⟩
      · rw [if_neg hd] at hres
        simp only [Option.some.injEq] at hres
        subst hres
        exact ⟨fun r _ _ _ => rfl, fun R2 h2 => by simp at h2; omega⟩

theorem sfo_defaults_alloc_case (F : Nat) (h0 : Heap) (V : JVal) (a : SFOHArgs)
    (out : Heap × Except JSErr Nat)
    (hres : (match (allocVal V h0).2 with
      | HVal.ref R => mutatePhase F (allocVal V h0).1 R a
      | HVal.prim _ => none) = some out) :
    (∀ r, r < h0.length → List.get? out.1 r = List.get? h0 r)
    ∧ (∀ R2, out.2 = Except.ok R2 → h0.length ≤ R2) := by
  obtain ⟨⟨t, ht⟩, hrlb, hroot⟩ := allocVal_spec V h0
  cases hpv : (allocVal V h0).2 with
  | prim v =>
    rw [hpv] at hres
    simp at hres
  | ref R =>
    rw [hpv] at hres
    simp only [] at hres
    have hR0 : h0.length ≤ R := by
      rw [hpv] at hrlb
      simp only [refLB, decide_eq_true_eq] at hrlb
      omega
    obtain ⟨cell, hcell, hcellrefs⟩ := hroot R hpv
    obtain ⟨hframe, hok⟩ := mutatePhase_frame F _ R a out hres
    constructor
    · intro r hr0
      have h1 : r < (allocVal V h0).1.length := by
        rw [ht]
        simp
        omega
      have h2 : r ≠ R := by omega
      have h3 : ∀ rh, heapLookupField (allocVal V h0).1 R "headers"
          = some (.ref rh) → r ≠ rh := by
        intro rh he
        unfold heapLookupField at he
        rw [hcell] at he
        have := hcellrefs _ (mem_of_hlookup _ _ _ he)
        simp only [refLB, decide_eq_true_eq] at this
        omega
      rw [hframe r h1 h2 h3, ht, heap_get_append _ _ _ hr0]
    · intro R2 hR2
      rcases hok R2 hR2 with rfl | hge
      · omega
      · rw [ht] at hge
        simp at hge
        omega

/-- C9: a request call never writes the client configuration captured at
construction.  With defaults in use, every heap cell that existed before
the call — in particular the stored default options object and all its
nested objects, such as its headers map — is unchanged after the merge
and body/header shaping, and the options object the call goes on to use
lives entirely in freshly allocated cells; with defaults bypassed, the
only cells the call can write are the caller's own per-call options cell
and the cell behind its headers field, so any cell distinct from those —
in particular the configuration, absent aliasing with the per-call
options — is unchanged. -/
theorem config_unchanged_by_call (F : Nat) (h0 : Heap) (cfgRef restRef : Nat)
    (a : SFOHArgs) (out : Heap × Except JSErr Nat)
    (hres : setFetchOptionsHeap F h0 cfgRef restRef a = some out) :
    (a.defaultOptionsUsed = true →
      (∀ r, r < h0.length → List.get? out.1 r = List.get? h0 r)
      ∧ (∀ R2, out.2 = .ok R2 → h0.length ≤ R2))
    ∧ (a.defaultOptionsUsed = false →
      ∀ r, r < h0.length → r ≠ restRef →
        (∀ rh, heapLookupField h0 restRef "headers" = some (.ref rh) → r ≠ rh) →
        List.get? out.1 r = List.get? h0 r) := by
  constructor
  · intro hdu
    unfold setFetchOptionsHeap at hres
    rw [hdu] at hres
    simp only [if_true] at hres
    cases hc : readVal F h0 (.ref cfgRef) with
    | none =>
      rw [hc] at hres
      simp at hres
    | some vCfg =>
      rw [hc] at hres
      cases hr : readVal F h0 (.ref restRef) with
      | none =>
        rw [hr] at hres
        simp at hres
      | some vRest =>
        rw [hr] at hres
        simp only [] at hres
        cases hdy : a.dynamicOptions with
        | none =>
          rw [hdy] at hres
          simp only [] at hres
          exact sfo_defaults_alloc_case F h0 _ a out hres
        | some dv =>
          rw [hdy] at hres
          simp only [] at hres
          by_cases hpo : isPlainObject dv = true
          · rw [if_pos hpo] at hres
            exact sfo_defaults_alloc_case F h0 _ a out hres
          · rw [if_neg hpo] at hres
            simp only [Option.some.injEq] at hres
            subst hres
            exact ⟨fun r hr => rfl, fun R2 h2 => by simp at h2⟩
  · intro hdu
    unfold setFetchOptionsHeap at hres
    rw [hdu] at hres
    simp only [Bool.false_eq_true, if_false] at hres
    intro r hr0 hrR hrh
    exact (mutatePhase_frame F h0 restRef a out hres).1 r hr0 hrR hrh

theorem config_unchanged_by_call_witness :
    List.get? ([[("a", HVal.prim (JVal.num 1))], [],
        [("a", HVal.prim (JVal.num 1))]] : Heap) 0
      = List.get? ([[("a", HVal.prim (JVal.num 1))], []] : Heap) 0
    ∧ ([[("a", HVal.prim (JVal.num 1))], []] : Heap).length ≤ 2 := by
  have hres : setFetchOptionsHeap 3 [[("a", HVal.prim (JVal.num 1))], []] 0 1 {}
      = some ([[("a", HVal.prim (JVal.num 1))], [],
          [("a", HVal.prim (JVal.num 1))]], Except.ok 2) := by
    simp [setFetchOptionsHeap, mutatePhase, readVal, readFields, allocVal,
      allocFields, deepMerge, mergeEntries, jlookup, isMergeableJ, isPlainObject,
      entriesOf, setKey, setField, deleteCT, heapLookupField, hlookup, setKeyH,
      List.get?, methodIs, methodOf, isFormURLEncodedOf, contentTypeOf]
  have h := config_unchanged_by_call 3 _ 0 1 {} _ hres
  exact ⟨(h.1 rfl).1 0 (by decide), (h.1 rfl).2 2 rfl⟩

